import Mathlib

/-!
# Verification of the position core of the multi-variant Stockfish fork

A shallow embedding of `src/position.cpp`: the `Position` data model, the
move execution engine (`do_move` / `undo_move` / null moves), the Zobrist
key bookkeeping (`set_state`), the draw detector (`is_draw`), the static
exchange evaluator entry (`see_ge`), legality (`legal`), and the position
string parser/serializer (`set` / `fen`).

Conventions mirroring the C++ source:
* squares are `Nat` codes `0 = A1 … 63 = H8`, `64 = SQ_NONE`;
* colors are `Nat` codes `0 = WHITE`, `1 = BLACK`;
* piece types are `Nat` codes `0 = NO_PIECE_TYPE/ALL_PIECES`, `1 = PAWN`,
  `2 = KNIGHT`, `3 = BISHOP`, `4 = ROOK`, `5 = QUEEN`, `6 = KING`;
* pieces are `Nat` codes `8*color + type` (`0 = NO_PIECE`), so `W_PAWN = 1`,
  `B_PAWN = 9`, …; the C++ `~pc` is `pc ^^^ 8`;
* bitboards are `Nat` values whose bit `s` stands for square `s`.

The compile-time variant matrix of the fork is modelled with a runtime
`Variant` tag; branches of the source that are guarded by variant
predicates which are false in the standard-chess variant are embedded for
the variants the claims exercise (standard chess everywhere, plus the
crazyhouse/three-check prefix of `see_ge`).

The Zobrist tables, piece-square tables and piece values are process-wide
constant arrays initialized at startup (`Position::init`, `psqt.cpp`,
`types.h`); theorems are stated for an arbitrary choice of these tables,
recording as hypotheses only the structural facts `Position::init`
guarantees (the XOR-closure of the castling keys).
-/

namespace SfX

abbrev Bitboard := Nat
abbrev Key := Nat

/-- Midgame/endgame score pair (the C++ `Score` packs both in one int). -/
abbrev Score := Int × Int

def SQ_NONE : Nat := 64

/-- `SquareBB[s]`. -/
def squareBB (s : Nat) : Bitboard := 2 ^ s

def file_of (s : Nat) : Nat := s % 8
def rank_of (s : Nat) : Nat := s / 8

/-- `relative_square(c, s)`: vertical flip for Black. -/
def relative_square (c s : Nat) : Nat := s ^^^ (c * 56)

/-- `relative_rank(c, r)`. -/
def relative_rank_r (c r : Nat) : Nat := r ^^^ (c * 7)

/-- `relative_rank(c, s)`. -/
def relative_rank (c s : Nat) : Nat := relative_rank_r c (rank_of s)

def color_of (pc : Nat) : Nat := pc / 8
def type_of (pc : Nat) : Nat := pc % 8
def make_piece (c t : Nat) : Nat := 8 * c + t

/-- `pawn_push(c)` as a signed square delta (`NORTH` / `SOUTH`). -/
def pawn_push (c : Nat) : Int := if c = 0 then 8 else -8

/-- Modelled from the spec: `bitboard.h` is not part of the sources; a step
attack set is the union of the on-board squares reached by the given
(rank, file) deltas (§4.4: "pawn/knight/king step attacks"). -/
def stepAttacks (s : Nat) (deltas : List (Int × Int)) : Bitboard :=
  deltas.foldr (fun d acc =>
    let r : Int := (s : Int) / 8 + d.1
    let f : Int := (s : Int) % 8 + d.2
    if 0 ≤ r ∧ r < 8 ∧ 0 ≤ f ∧ f < 8 then acc ||| squareBB (8 * r + f).toNat
    else acc) 0

def knightAttacks (s : Nat) : Bitboard :=
  stepAttacks s [(1, 2), (2, 1), (2, -1), (1, -2), (-1, -2), (-2, -1), (-2, 1), (-1, 2)]

def kingAttacks (s : Nat) : Bitboard :=
  stepAttacks s [(1, -1), (1, 0), (1, 1), (0, -1), (0, 1), (-1, -1), (-1, 0), (-1, 1)]

/-- `attacks_from<PAWN>(s, c)`: the two diagonal capture squares. -/
def pawnAttacks (c s : Nat) : Bitboard :=
  if c = 0 then stepAttacks s [(1, -1), (1, 1)] else stepAttacks s [(-1, -1), (-1, 1)]

/-- Modelled from the spec: one sliding ray from (`r`,`f`) in direction `d`,
collecting squares until (and including) the first occupied one (§4.4:
"sliding attacks … computed against a caller-supplied occupancy bitboard"). -/
def rayAux : Nat → Int → Int → Int × Int → Bitboard → Bitboard
  | 0, _, _, _, _ => 0
  | fuel + 1, r, f, d, occ =>
    let r' := r + d.1
    let f' := f + d.2
    if 0 ≤ r' ∧ r' < 8 ∧ 0 ≤ f' ∧ f' < 8 then
      let sq := (8 * r' + f').toNat
      squareBB sq ||| (if occ.testBit sq then 0 else rayAux fuel r' f' d occ)
    else 0

def rookDirs : List (Int × Int) := [(1, 0), (-1, 0), (0, 1), (0, -1)]
def bishopDirs : List (Int × Int) := [(1, 1), (1, -1), (-1, 1), (-1, -1)]

def slide (dirs : List (Int × Int)) (s : Nat) (occ : Bitboard) : Bitboard :=
  dirs.foldr (fun d acc => rayAux 7 ((s : Int) / 8) ((s : Int) % 8) d occ ||| acc) 0

/-- `attacks_bb<ROOK>(s, occupied)`. -/
def rookAttacks (s : Nat) (occ : Bitboard) : Bitboard := slide rookDirs s occ

/-- `attacks_bb<BISHOP>(s, occupied)`. -/
def bishopAttacks (s : Nat) (occ : Bitboard) : Bitboard := slide bishopDirs s occ

/-- `PseudoAttacks[ROOK][s]` (empty-board occupancy). -/
def pseudoRook (s : Nat) : Bitboard := rookAttacks s 0

/-- `PseudoAttacks[BISHOP][s]`. -/
def pseudoBishop (s : Nat) : Bitboard := bishopAttacks s 0

def allDirs : List (Int × Int) := rookDirs ++ bishopDirs

/-- `LineBB[s1][s2]`: the full line through two ray-aligned squares
(endpoints included), empty otherwise. -/
def lineBB (s1 s2 : Nat) : Bitboard :=
  match allDirs.find? (fun d => (rayAux 7 ((s1 : Int) / 8) ((s1 : Int) % 8) d 0).testBit s2) with
  | some d =>
      squareBB s1 ||| rayAux 7 ((s1 : Int) / 8) ((s1 : Int) % 8) d 0
        ||| rayAux 7 ((s1 : Int) / 8) ((s1 : Int) % 8) (-d.1, -d.2) 0
  | none => 0

/-- `aligned(s1, s2, s3)`: `LineBB[s1][s2] & s3`. -/
def aligned (s1 s2 s3 : Nat) : Bool := (lineBB s1 s2).testBit s3

/-- `between_bb(s1, s2)`: squares strictly between two aligned squares. -/
def between_bb (s1 s2 : Nat) : Bitboard :=
  match allDirs.find? (fun d => (rayAux 7 ((s1 : Int) / 8) ((s1 : Int) % 8) d 0).testBit s2) with
  | some d => rayAux 7 ((s1 : Int) / 8) ((s1 : Int) % 8) d (squareBB s2) ^^^ squareBB s2
  | none => 0

/-- `more_than_one(b)`. -/
def more_than_one (b : Bitboard) : Bool := b &&& (b - 1) ≠ 0

/-- `lsb(b)` (index of least significant set bit; 0 on empty). -/
def lsbSq (b : Bitboard) : Nat := (b ^^^ (b &&& (b - 1))).log2

/-- The rule variants of the fork (the `Variant` enum of `variant.h`). -/
inductive Variant where
  | chess | anti | atomic | crazyhouse | extinct | grid | horde | kingOfTheHill
  | losers | race | threeCheck | twoKings
  deriving DecidableEq, Repr

def is_house : Variant → Bool := (· = Variant.crazyhouse)
def is_three_check : Variant → Bool := (· = Variant.threeCheck)
def is_anti : Variant → Bool := (· = Variant.anti)
def is_atomic : Variant → Bool := (· = Variant.atomic)
def is_horde : Variant → Bool := (· = Variant.horde)
def is_race : Variant → Bool := (· = Variant.race)
def is_losers : Variant → Bool := (· = Variant.losers)

/-- The process-wide Zobrist key tables (`Zobrist::` namespace, filled by
`Position::init` from a seeded PRNG; arbitrary here). -/
structure Zob where
  psq : Nat → Nat → Key
  enpassant : Nat → Key
  castling : Nat → Key
  side : Key
  noPawns : Key
  variantTab : Variant → Key

/-- The process-wide evaluation tables (`PSQT::psq` and `PieceValue`,
indexed by variant, piece code and square; arbitrary here). -/
structure Tables where
  psqt : Variant → Nat → Nat → Score
  pieceValue : Variant → Nat → Int

/-- The per-ply incremental state (`StateInfo` of `position.h`); `previous`
links the State Record Chain. -/
structure StateInfo where
  pawnKey : Key
  materialKey : Key
  nonPawnMaterial : Nat → Int
  castlingRights : Nat
  rule50 : Nat
  pliesFromNull : Nat
  psq : Score
  epSquare : Nat
  key : Key
  checkersBB : Bitboard
  capturedPiece : Nat
  previous : Option StateInfo
  blockersForKing : Nat → Bitboard
  pinnersForKing : Nat → Bitboard
  checkSquares : Nat → Bitboard

/-- A default (all-zero) state, standing for the `std::memset(si, 0, …)`
cleared `StateInfo` of `Position::set`. -/
def StateInfo.zero : StateInfo where
  pawnKey := 0
  materialKey := 0
  nonPawnMaterial := fun _ => 0
  castlingRights := 0
  rule50 := 0
  pliesFromNull := 0
  psq := (0, 0)
  epSquare := 0
  key := 0
  checkersBB := 0
  capturedPiece := 0
  previous := none
  blockersForKing := fun _ => 0
  pinnersForKing := fun _ => 0
  checkSquares := fun _ => 0

/-- The `Position` object (board store plus search state). -/
structure Pos where
  board : Nat → Nat
  byTypeBB : Nat → Bitboard
  byColorBB : Nat → Bitboard
  pieceCount : Nat → Nat
  pieceList : Nat → Nat → Nat
  indexArr : Nat → Nat
  castlingRightsMask : Nat → Nat
  castlingRookSquare : Nat → Nat
  castlingPath : Nat → Bitboard
  gamePly : Nat
  sideToMove : Nat
  chess960 : Bool
  var : Variant
  st : StateInfo

namespace Pos

/-- In-place transform of one entry of a table. -/
def updF {β : Sort _} (f : Nat → β) (i : Nat) (g : β → β) : Nat → β :=
  Function.update f i (g (f i))

def pieces (pos : Pos) : Bitboard := pos.byTypeBB 0
def piecesT (pos : Pos) (t : Nat) : Bitboard := pos.byTypeBB t
def piecesTT (pos : Pos) (t1 t2 : Nat) : Bitboard := pos.byTypeBB t1 ||| pos.byTypeBB t2
def piecesC (pos : Pos) (c : Nat) : Bitboard := pos.byColorBB c
def piecesCT (pos : Pos) (c t : Nat) : Bitboard := pos.byColorBB c &&& pos.byTypeBB t
def piecesCTT (pos : Pos) (c t1 t2 : Nat) : Bitboard :=
  pos.byColorBB c &&& (pos.byTypeBB t1 ||| pos.byTypeBB t2)
def piece_on (pos : Pos) (s : Nat) : Nat := pos.board s
def emptySq (pos : Pos) (s : Nat) : Bool := pos.board s = 0

/-- `square<Pt>(c)`: the first piece-list entry. -/
def square_of (pos : Pos) (c t : Nat) : Nat := pos.pieceList (make_piece c t) 0

def ep_square (pos : Pos) : Nat := pos.st.epSquare
def checkers (pos : Pos) : Bitboard := pos.st.checkersBB

/-- Modelled from the spec: `put_piece` lives in `position.h`, which is not
among the sources; per §4.1/§3 it mutates `board`, both bitboard views and
the piece-list/index structures, appending the new piece at the end of its
list. -/
def put_piece (pos : Pos) (pc s : Nat) : Pos :=
  { pos with
    board := Function.update pos.board s pc
    byTypeBB := updF (updF pos.byTypeBB 0 (· ||| squareBB s)) (type_of pc) (· ||| squareBB s)
    byColorBB := updF pos.byColorBB (color_of pc) (· ||| squareBB s)
    indexArr := Function.update pos.indexArr s (pos.pieceCount pc)
    pieceList := updF pos.pieceList pc (fun l => Function.update l (pos.pieceCount pc) s)
    pieceCount :=
      updF (updF pos.pieceCount pc (· + 1)) (make_piece (color_of pc) 0) (· + 1) }

/-- Modelled from the spec: `remove_piece` of `position.h` (absent from the
sources); per §4.1 it removes an arbitrary piece in O(1) via index-swap
with the last list entry, and does not touch `board` (the capturing piece
overwrites it). -/
def remove_piece (pos : Pos) (pc s : Nat) : Pos :=
  let cnt := pos.pieceCount pc - 1
  let lastSquare := pos.pieceList pc cnt
  { pos with
    byTypeBB := updF (updF pos.byTypeBB 0 (· ^^^ squareBB s)) (type_of pc) (· ^^^ squareBB s)
    byColorBB := updF pos.byColorBB (color_of pc) (· ^^^ squareBB s)
    indexArr := Function.update pos.indexArr lastSquare (pos.indexArr s)
    pieceList := updF pos.pieceList pc (fun l =>
      Function.update (Function.update l (pos.indexArr s) lastSquare) cnt SQ_NONE)
    pieceCount :=
      updF (updF pos.pieceCount pc (· - 1)) (make_piece (color_of pc) 0) (· - 1) }

/-- Modelled from the spec: `move_piece` of `position.h` (absent from the
sources); per §4.1 it moves a piece updating `board`, the bitboards (XOR of
a from/to pair) and the mover's piece-list slot. -/
def move_piece (pos : Pos) (pc f t : Nat) : Pos :=
  let ftbb := squareBB f ^^^ squareBB t
  { pos with
    board := Function.update (Function.update pos.board f 0) t pc
    byTypeBB := updF (updF pos.byTypeBB 0 (· ^^^ ftbb)) (type_of pc) (· ^^^ ftbb)
    byColorBB := updF pos.byColorBB (color_of pc) (· ^^^ ftbb)
    indexArr := Function.update pos.indexArr t (pos.indexArr f)
    pieceList := updF pos.pieceList pc (fun l => Function.update l (pos.indexArr f) t) }

/-- `Position::attackers_to(s, occupied)`. -/
def attackers_to (pos : Pos) (s : Nat) (occ : Bitboard) : Bitboard :=
  (pawnAttacks 1 s &&& pos.piecesCT 0 1)
    ||| (pawnAttacks 0 s &&& pos.piecesCT 1 1)
    ||| (knightAttacks s &&& pos.piecesT 2)
    ||| (rookAttacks s occ &&& pos.piecesTT 4 5)
    ||| (bishopAttacks s occ &&& pos.piecesTT 3 5)
    ||| (kingAttacks s &&& pos.piecesT 6)

/-- The default-occupancy overload `attackers_to(s)`. -/
def attackers_to_d (pos : Pos) (s : Nat) : Bitboard := pos.attackers_to s pos.pieces

/-- `Position::slider_blockers(sliders, s, pinners)`; returns
`(blockers, pinners)`.  The C++ iterates the snipers in LSB order popping
one bit per round; the fold below visits the same squares accumulating with
`|||`, which is order-independent. -/
def slider_blockers (pos : Pos) (sliders : Bitboard) (s : Nat) : Bitboard × Bitboard :=
  let snipers := ((pseudoRook s &&& pos.piecesTT 5 4)
      ||| (pseudoBishop s &&& pos.piecesTT 5 3)) &&& sliders
  (List.range 64).foldr (fun sq acc =>
    if snipers.testBit sq then
      let b := between_bb s sq &&& pos.pieces
      if ¬more_than_one b then
        (acc.1 ||| b,
         if b &&& pos.piecesC (color_of (pos.piece_on s)) ≠ 0 then acc.2 ||| squareBB sq
         else acc.2)
      else acc
    else acc) (0, 0)

/-- `Position::set_check_info(si)` in the standard-chess variant (the
`ANTI`/`HORDE`/`ATOMIC` early-outs are dead for `var = chess`). -/
def set_check_info (pos : Pos) (si : StateInfo) : StateInfo :=
  let wb := pos.slider_blockers (pos.piecesC 1) (pos.square_of 0 6)
  let bb := pos.slider_blockers (pos.piecesC 0) (pos.square_of 1 6)
  let ksq := pos.square_of (pos.sideToMove ^^^ 1) 6
  { si with
    blockersForKing := fun c => if c = 0 then wb.1 else bb.1
    pinnersForKing := fun c => if c = 0 then wb.2 else bb.2
    checkSquares := fun t =>
      if t = 1 then pawnAttacks (pos.sideToMove ^^^ 1) ksq
      else if t = 2 then knightAttacks ksq
      else if t = 3 then bishopAttacks ksq pos.pieces
      else if t = 4 then rookAttacks ksq pos.pieces
      else if t = 5 then bishopAttacks ksq pos.pieces ||| rookAttacks ksq pos.pieces
      else 0 }

end Pos

/-- XOR-fold of `f` over the set bits of a 64-bit board. -/
def xorFold64 (occ : Bitboard) (f : Nat → Key) : Key :=
  (List.range 64).foldr (fun s a => (if occ.testBit s then f s else 0) ^^^ a) 0

/-- XOR-fold of `f` over `0 … n-1`. -/
def xorFoldN (n : Nat) (f : Nat → Key) : Key :=
  (List.range n).foldr (fun i a => f i ^^^ a) 0

/-- Additive fold of a score table over the set bits of a board. -/
def addFold64 (occ : Bitboard) (f : Nat → Score) : Score :=
  (List.range 64).foldr (fun s a => (if occ.testBit s then f s else (0, 0)) + a) (0, 0)

/-- The 16 real piece codes (the `Pieces` constant of `types.h`). -/
def PiecesL : List Nat := [1, 2, 3, 4, 5, 6, 9, 10, 11, 12, 13, 14]

namespace Pos

/-- `Position::set_state(si)` in the standard-chess variant: from-scratch
recomputation of all incrementally maintained `StateInfo` data. -/
def set_state (Z : Zob) (T : Tables) (pos : Pos) (si : StateInfo) : StateInfo :=
  let si := pos.set_check_info si
  let checkersBB :=
    pos.attackers_to_d (pos.square_of pos.sideToMove 6) &&& pos.piecesC (pos.sideToMove ^^^ 1)
  let baseKey := Z.variantTab pos.var
  let k1 := baseKey ^^^ xorFold64 pos.pieces (fun s => Z.psq (pos.board s) s)
  let psq := addFold64 pos.pieces (fun s => T.psqt pos.var (pos.board s) s)
  let k2 := if si.epSquare ≠ SQ_NONE then k1 ^^^ Z.enpassant (file_of si.epSquare) else k1
  let k3 := if pos.sideToMove = 1 then k2 ^^^ Z.side else k2
  let k4 := k3 ^^^ Z.castling si.castlingRights
  let pawnKey := Z.noPawns ^^^ xorFold64 (pos.byTypeBB 1) (fun s => Z.psq (pos.board s) s)
  let npm : Nat → Int := fun c =>
    PiecesL.foldr (fun pc a =>
      if color_of pc = c ∧ type_of pc ≠ 1 ∧ type_of pc ≠ 6 then
        a + pos.pieceCount pc * T.pieceValue Variant.chess pc
      else a) 0
  let materialKey :=
    baseKey ^^^ PiecesL.foldr (fun pc a => a ^^^ xorFoldN (pos.pieceCount pc) (Z.psq pc)) 0
  { si with
    key := k4
    pawnKey := pawnKey
    materialKey := materialKey
    nonPawnMaterial := npm
    psq := psq
    checkersBB := checkersBB }

end Pos

/-- A move: origin, destination, kind tag and promotion piece type (the
16-bit encoding of `types.h` unpacked; kind `0` = NORMAL, `1` = PROMOTION,
`2` = ENPASSANT, `3` = CASTLING; castling is encoded as "king captures own
rook", so `toSq` is the rook's square). -/
structure Move where
  fromSq : Nat
  toSq : Nat
  kind : Nat
  promo : Nat
  deriving DecidableEq, Repr

namespace Pos

/-- The king/rook destination squares of a castling move:
`(kto, rfrom, rto)` as computed at the head of `Position::do_castling`. -/
def castle_squares (us f t : Nat) : Nat × Nat × Nat :=
  let kingSide := f < t
  (relative_square us (if kingSide then 6 else 2), t,
   relative_square us (if kingSide then 5 else 3))

/-- `Position::do_castling<Do>(us, from, to, rfrom, rto)`: removes both
pieces first (squares can overlap in Chess960), explicitly clears their
origin squares on the board, then puts king and rook on their targets. -/
def do_castling (doIt : Bool) (pos : Pos) (us f t : Nat) : Pos :=
  let cs := castle_squares us f t
  let kto := cs.1
  let rfrom := cs.2.1
  let rto := cs.2.2
  let p1 := pos.remove_piece (make_piece us 6) (if doIt then f else kto)
  let p2 := p1.remove_piece (make_piece us 4) (if doIt then rfrom else rto)
  let p3 := { p2 with
    board := Function.update (Function.update p2.board (if doIt then rfrom else rto) 0)
      (if doIt then f else kto) 0 }
  let p4 := p3.put_piece (make_piece us 6) (if doIt then kto else f)
  p4.put_piece (make_piece us 4) (if doIt then rto else rfrom)

/-- `Position::do_move(m, newSt, givesCheck)` in the standard-chess variant
(the `CRAZYHOUSE`/`ATOMIC`/`THREECHECK`/`HORDE`/`ANTI` blocks are dead for
`var = chess`).  The C++ copies the old `StateInfo` fields up to
`offsetof(StateInfo, key)` into `newSt` and links `previous`; the fields
past `key` are uninitialized until assigned, and all of them are assigned
before returning. -/
def do_move (Z : Zob) (T : Tables) (pos : Pos) (m : Move) (givesCheck : Bool) : Pos :=
  let k0 := pos.st.key ^^^ Z.side
  let us := pos.sideToMove
  let them := us ^^^ 1
  let f := m.fromSq
  let t := m.toSq
  let pc := pos.board f
  let captured := if m.kind = 2 then make_piece them 1 else pos.board t
  -- castling block (rebinds `to` to the king's destination square)
  let stage1 :=
    if m.kind = 3 then
      let cs := castle_squares us f t
      (do_castling true pos us f t,
       k0 ^^^ Z.psq captured cs.2.1 ^^^ Z.psq captured cs.2.2,
       pos.st.psq + T.psqt pos.var captured cs.2.2 - T.psqt pos.var captured cs.2.1,
       cs.1, 0)
    else (pos, k0, pos.st.psq, t, captured)
  let pos1 := stage1.1
  let k1 := stage1.2.1
  let psq1 := stage1.2.2.1
  let to1 := stage1.2.2.2.1
  let captured1 := stage1.2.2.2.2
  -- capture block
  let stage2 :=
    if captured1 ≠ 0 then
      let capsq := if m.kind = 2 then ((t : Int) - pawn_push us).toNat else to1
      let posA :=
        if m.kind = 2 then { pos1 with board := Function.update pos1.board capsq 0 } else pos1
      let pawnKeyA :=
        if type_of captured1 = 1 then pos.st.pawnKey ^^^ Z.psq captured1 capsq
        else pos.st.pawnKey
      let npmA :=
        if type_of captured1 = 1 then pos.st.nonPawnMaterial
        else updF pos.st.nonPawnMaterial them (· - T.pieceValue Variant.chess captured1)
      let posB := posA.remove_piece captured1 capsq
      (posB, k1 ^^^ Z.psq captured1 capsq, pawnKeyA, npmA,
       pos.st.materialKey ^^^ Z.psq captured1 (posB.pieceCount captured1),
       psq1 - T.psqt pos.var captured1 capsq, 0)
    else (pos1, k1, pos.st.pawnKey, pos.st.nonPawnMaterial, pos.st.materialKey, psq1,
      pos.st.rule50 + 1)
  let pos2 := stage2.1
  let k2 := stage2.2.1
  let pawnKey2 := stage2.2.2.1
  let npm2 := stage2.2.2.2.1
  let matKey2 := stage2.2.2.2.2.1
  let psq2 := stage2.2.2.2.2.2.1
  let rule50₂ := stage2.2.2.2.2.2.2
  -- k ^= Zobrist::psq[pc][from] ^ Zobrist::psq[pc][to]
  let k3 := k2 ^^^ Z.psq pc f ^^^ Z.psq pc to1
  -- reset en passant
  let k4 :=
    if pos.st.epSquare ≠ SQ_NONE then k3 ^^^ Z.enpassant (file_of pos.st.epSquare) else k3
  -- castling rights
  let crm := pos.castlingRightsMask f ||| pos.castlingRightsMask to1
  let stage3 :=
    if pos.st.castlingRights ≠ 0 ∧ crm ≠ 0 then
      (k4 ^^^ Z.castling (pos.st.castlingRights &&& crm),
       pos.st.castlingRights ^^^ (pos.st.castlingRights &&& crm))
    else (k4, pos.st.castlingRights)
  let k5 := stage3.1
  let cr1 := stage3.2
  -- move the piece (castling was handled above)
  let pos3 := if m.kind ≠ 3 then pos2.move_piece pc f to1 else pos2
  -- pawn extra work
  let stage4 :=
    if type_of pc = 1 then
      if (t ^^^ f) = 16 ∧
          pawnAttacks us (((t : Int) - pawn_push us).toNat) &&& pos3.piecesCT them 1 ≠ 0 then
        (pos3, k5 ^^^ Z.enpassant (file_of ((f + t) / 2)), (f + t) / 2,
         pawnKey2 ^^^ Z.psq pc f ^^^ Z.psq pc t, matKey2, psq2, npm2, 0)
      else if m.kind = 1 then
        let promotion := make_piece us m.promo
        let posP := (pos3.remove_piece pc t).put_piece promotion t
        (posP, k5 ^^^ Z.psq pc t ^^^ Z.psq promotion t, SQ_NONE,
         (pawnKey2 ^^^ Z.psq pc t) ^^^ Z.psq pc f ^^^ Z.psq pc t,
         matKey2 ^^^ Z.psq promotion (posP.pieceCount promotion - 1)
           ^^^ Z.psq pc (posP.pieceCount pc),
         psq2 + T.psqt pos.var promotion t - T.psqt pos.var pc t,
         updF npm2 us (· + T.pieceValue Variant.chess promotion), 0)
      else (pos3, k5, SQ_NONE, pawnKey2 ^^^ Z.psq pc f ^^^ Z.psq pc t, matKey2, psq2, npm2, 0)
    else (pos3, k5, SQ_NONE, pawnKey2, matKey2, psq2, npm2, rule50₂)
  let pos4 := stage4.1
  let k6 := stage4.2.1
  let ep1 := stage4.2.2.1
  let pawnKey3 := stage4.2.2.2.1
  let matKey3 := stage4.2.2.2.2.1
  let psq3 := stage4.2.2.2.2.2.1
  let npm3 := stage4.2.2.2.2.2.2.1
  let rule50₃ := stage4.2.2.2.2.2.2.2
  -- update incremental scores (uses the possibly rebound `to`)
  let psq4 := psq3 + T.psqt pos.var pc to1 - T.psqt pos.var pc f
  let newSt : StateInfo :=
    { pawnKey := pawnKey3
      materialKey := matKey3
      nonPawnMaterial := npm3
      castlingRights := cr1
      rule50 := rule50₃
      pliesFromNull := pos.st.pliesFromNull + 1
      psq := psq4
      epSquare := ep1
      key := k6
      checkersBB :=
        if givesCheck then pos4.attackers_to_d (pos4.square_of them 6) &&& pos4.piecesC us
        else 0
      capturedPiece := captured1
      previous := some pos.st
      blockersForKing := fun _ => 0
      pinnersForKing := fun _ => 0
      checkSquares := fun _ => 0 }
  let pos5 := { pos4 with sideToMove := them, gamePly := pos.gamePly + 1, st := newSt }
  { pos5 with st := pos5.set_check_info pos5.st }

/-- `Position::undo_move(m)` in the standard-chess variant. -/
def undo_move (pos : Pos) (m : Move) : Pos :=
  let us := pos.sideToMove ^^^ 1
  let f := m.fromSq
  let t := m.toSq
  let pc0 := pos.board t
  let stage1 :=
    if m.kind = 1 then
      ((pos.remove_piece pc0 t).put_piece (make_piece us 1) t, make_piece us 1)
    else (pos, pc0)
  let pos1 := stage1.1
  let pc := stage1.2
  let pos2 :=
    if m.kind = 3 then do_castling false pos1 us f t
    else
      let p := pos1.move_piece pc t f
      if pos.st.capturedPiece ≠ 0 then
        let capsq := if m.kind = 2 then ((t : Int) - pawn_push us).toNat else t
        p.put_piece pos.st.capturedPiece capsq
      else p
  { pos2 with
    sideToMove := us
    gamePly := pos.gamePly - 1
    st := pos.st.previous.getD StateInfo.zero }

/-- `Position::do_null_move(newSt)`: copies the whole `StateInfo`, clears
the en-passant square, flips the side to move; no piece moves. -/
def do_null_move (Z : Zob) (pos : Pos) : Pos :=
  let st1 := { pos.st with previous := some pos.st }
  let st2 :=
    if st1.epSquare ≠ SQ_NONE then
      { st1 with key := st1.key ^^^ Z.enpassant (file_of st1.epSquare), epSquare := SQ_NONE }
    else st1
  let st3 := { st2 with
    key := st2.key ^^^ Z.side
    rule50 := st2.rule50 + 1
    pliesFromNull := 0 }
  let pos1 := { pos with sideToMove := pos.sideToMove ^^^ 1, st := st3 }
  { pos1 with st := pos1.set_check_info pos1.st }

/-- `Position::undo_null_move()`. -/
def undo_null_move (pos : Pos) : Pos :=
  { pos with
    st := pos.st.previous.getD StateInfo.zero
    sideToMove := pos.sideToMove ^^^ 1 }

end Pos

/-- Walking `n` `previous` links of the State Record Chain. -/
def StateInfo.prevN : StateInfo → Nat → Option StateInfo
  | si, 0 => some si
  | si, n + 1 =>
    match si.previous with
    | some p => p.prevN n
    | none => none

/-- The repetition loop of `Position::is_draw`: `stp` is the state two
plies above the next one to examine, `i` the next distance, `iters` the
remaining iterations (`i = 4, 6, …, e`), `cnt` the matches seen so far.  A
chain shorter than the window is undefined behaviour in the C++ (a wild
pointer dereference); it is modelled as `false` and excluded by hypothesis
in the theorems. -/
def goRep (stKey : Key) (ply : Int) : Nat → Nat → Nat → Option StateInfo → Bool
  | 0, _, _, _ => false
  | iters + 1, i, cnt, stp =>
    match (stp.bind (·.previous)).bind (·.previous) with
    | none => false
    | some sp =>
      if sp.key = stKey ∧ cnt + 1 + (if (ply : Int) - i > 0 then 1 else 0) = 2 then true
      else goRep stKey ply iters (i + 2) (if sp.key = stKey then cnt + 1 else cnt) (some sp)

namespace Pos

/-- The repetition half of `Position::is_draw` (the walk over the State
Record Chain, capped by `min(rule50, pliesFromNull)`). -/
def rep_part (pos : Pos) (ply : Int) : Bool :=
  let e := min pos.st.rule50 pos.st.pliesFromNull
  if e < 4 then false
  else goRep pos.st.key ply ((e - 4) / 2 + 1) 4 0 (pos.st.previous.bind (·.previous))

/-- `Position::is_draw(ply)` in the standard-chess variant.  The term
`MoveList<LEGAL>(*this).size()` calls the move generator, which is outside
this core (`movegen.cpp` is not among the sources); it enters as the
boolean parameter `hasLegalMove`. -/
def is_draw (pos : Pos) (ply : Int) (hasLegalMove : Bool) : Bool :=
  if 99 < pos.st.rule50 ∧ (pos.checkers = 0 ∨ hasLegalMove) then true
  else pos.rep_part ply

/-- `pinned_pieces(c)`: modelled from the spec (the accessor lives in
`position.h`, absent from the sources): the own-colored king-attack
blockers (§4.4, glossary "Pin / blocker"). -/
def pinned_pieces (pos : Pos) (c : Nat) : Bitboard :=
  pos.st.blockersForKing c &&& pos.piecesC c

/-- `attacks_bb(pc, s, occupied)` dispatch on the piece type (as in
`bitboard.h`, with White pawn for the pawn case). -/
def attacks_bb_pt (pt s : Nat) (occ : Bitboard) : Bitboard :=
  if pt = 2 then knightAttacks s
  else if pt = 3 then bishopAttacks s occ
  else if pt = 4 then rookAttacks s occ
  else if pt = 5 then bishopAttacks s occ ||| rookAttacks s occ
  else if pt = 6 then kingAttacks s
  else pawnAttacks 0 s

/-- `Position::gives_check(m)` in the standard-chess variant. -/
def gives_check (pos : Pos) (m : Move) : Bool :=
  let f := m.fromSq
  let t := m.toSq
  let them := pos.sideToMove ^^^ 1
  let ksq := pos.square_of them 6
  if pos.st.checkSquares (type_of (pos.board f)) &&& squareBB t ≠ 0 then true
  else if (pos.st.blockersForKing them &&& pos.piecesC pos.sideToMove) &&& squareBB f ≠ 0
      ∧ ¬aligned f t ksq then true
  else if m.kind = 1 then
    attacks_bb_pt m.promo t (pos.pieces ^^^ squareBB f) &&& squareBB ksq ≠ 0
  else if m.kind = 2 then
    let capsq := 8 * rank_of f + file_of t
    let b := (pos.pieces ^^^ squareBB f ^^^ squareBB capsq) ||| squareBB t
    (rookAttacks ksq b &&& pos.piecesCTT pos.sideToMove 5 4)
      ||| (bishopAttacks ksq b &&& pos.piecesCTT pos.sideToMove 5 3) ≠ 0
  else if m.kind = 3 then
    let kfrom := f
    let rfrom := t
    let kto := relative_square pos.sideToMove (if kfrom < rfrom then 6 else 2)
    let rto := relative_square pos.sideToMove (if kfrom < rfrom then 5 else 3)
    (pseudoRook rto &&& squareBB ksq ≠ 0)
      ∧ rookAttacks rto ((pos.pieces ^^^ squareBB kfrom ^^^ squareBB rfrom)
          ||| squareBB rto ||| squareBB kto) &&& squareBB ksq ≠ 0
  else false

/-- `Position::legal(m)` in the standard-chess variant (the
`ANTI`/`RACE`/`HORDE`/`ATOMIC`/`CRAZYHOUSE` blocks are dead for
`var = chess`). -/
def legal (pos : Pos) (m : Move) : Bool :=
  let us := pos.sideToMove
  let f := m.fromSq
  if m.kind = 2 then
    let ksq := pos.square_of us 6
    let t := m.toSq
    let capsq := (((t : Int)) - pawn_push us).toNat
    let occupied := (pos.pieces ^^^ squareBB f ^^^ squareBB capsq) ||| squareBB t
    rookAttacks ksq occupied &&& pos.piecesCTT (us ^^^ 1) 5 4 = 0
      ∧ bishopAttacks ksq occupied &&& pos.piecesCTT (us ^^^ 1) 5 3 = 0
  else if type_of (pos.board f) = 6 then
    m.kind = 3 ∨ pos.attackers_to_d m.toSq &&& pos.piecesC (us ^^^ 1) = 0
  else
    pos.pinned_pieces us &&& squareBB f = 0 ∨ aligned f m.toSq (pos.square_of us 6)

end Pos

/-- The isolated least-significant-bit word `b & ~(b - 1)`. -/
def lowBit (b : Bitboard) : Bitboard := b ^^^ (b &&& (b - 1))

/-- `min_attacker<Pt>` of `position.cpp`: locate the least valuable
attacker among `stmAttackers`, remove it from `occupied` and add X-ray
attackers behind it; the `Pt = KING` specialization returns `KING` with no
update.  `fuel` descends as the template recursion ascends from `PAWN`. -/
def min_attacker_go (bb : Nat → Bitboard) (tSq : Nat) (stmAttackers : Bitboard) :
    Nat → Nat → Bitboard → Bitboard → Nat × Bitboard × Bitboard
  | _, 0, occ, att => (6, occ, att)
  | pt, fuel + 1, occ, att =>
    if 6 ≤ pt then (6, occ, att)
    else
      let b := stmAttackers &&& bb pt
      if b = 0 then min_attacker_go bb tSq stmAttackers (pt + 1) fuel occ att
      else
        let occ' := occ ^^^ lowBit b
        let att' := att
          ||| (if pt = 1 ∨ pt = 3 ∨ pt = 5 then bishopAttacks tSq occ' &&& (bb 3 ||| bb 5) else 0)
          ||| (if pt = 4 ∨ pt = 5 then rookAttacks tSq occ' &&& (bb 4 ||| bb 5) else 0)
        (pt, occ', att' &&& occ')

def min_attacker (bb : Nat → Bitboard) (tSq : Nat) (stmAttackers occ att : Bitboard) :
    Nat × Bitboard × Bitboard :=
  min_attacker_go bb tSq stmAttackers 1 6 occ att

namespace Pos

/-- The `while (true)` exchange loop of `Position::see_ge`; each round
either returns or removes one attacker from `occupied`, so at most 32
rounds happen and the fuel of 64 is never exhausted on a board. -/
def see_loop (T : Tables) (pos : Pos) (tSq : Nat) (v : Int) :
    Nat → Nat → Int → Bool → Bitboard → Bitboard → Bool
  | 0, _, _, relativeStm, _, _ => relativeStm
  | fuel + 1, stm, balance, relativeStm, occupied, attackers =>
    let stmAttackers0 := attackers &&& pos.piecesC stm
    let stmAttackers :=
      if pos.st.pinnersForKing stm ^^^ (pos.st.pinnersForKing stm &&& occupied) = 0 then
        stmAttackers0 ^^^ (stmAttackers0 &&& pos.st.blockersForKing stm)
      else stmAttackers0
    if stmAttackers = 0 then relativeStm
    else
      let r := min_attacker pos.byTypeBB tSq stmAttackers occupied attackers
      let nextVictim := r.1
      let occupied' := r.2.1
      let attackers' := r.2.2
      if nextVictim = 6 then relativeStm = (attackers' &&& pos.piecesC (stm ^^^ 1) ≠ 0)
      else
        let balance' := balance +
          (if relativeStm then T.pieceValue pos.var nextVictim
           else -T.pieceValue pos.var nextVictim)
        let relativeStm' := ¬relativeStm
        if relativeStm' = decide (balance' ≥ v) then relativeStm'
        else pos.see_loop T tSq v fuel (stm ^^^ 1) balance' relativeStm' occupied' attackers'

/-- `Position::see_ge(m, v)` for the chess-like variants (the `ATOMIC` and
`ANTI` rewrites of the exchange loop are outside the modelled scope; the
`CRAZYHOUSE` threshold halving and the `THREECHECK` checking-move shortcut
are embedded).  `Int.tdiv` is the C++ truncating integer division. -/
def see_ge (T : Tables) (pos : Pos) (m : Move) (v0 : Int) : Bool :=
  let v := if is_house pos.var then Int.tdiv v0 2 else v0
  if is_three_check pos.var ∧ color_of (pos.board m.fromSq) = pos.sideToMove
      ∧ pos.gives_check m then true
  else if m.kind = 3 then decide ((0 : Int) ≥ v)
  else
    let f := m.fromSq
    let tSq := m.toSq
    let nextVictim := type_of (pos.board f)
    let stm := color_of (pos.board f) ^^^ 1
    let occupied0 :=
      if m.kind = 2 then squareBB (((tSq : Int) - pawn_push (stm ^^^ 1)).toNat) else 0
    let balance0 :=
      if m.kind = 2 then T.pieceValue pos.var 1 else T.pieceValue pos.var (pos.board tSq)
    if balance0 < v then false
    else if nextVictim = 6 then true
    else
      let balance1 := balance0 - T.pieceValue pos.var nextVictim
      if balance1 ≥ v then true
      else
        let occupied1 := occupied0 ^^^ pos.pieces ^^^ squareBB f ^^^ squareBB tSq
        let attackers := pos.attackers_to tSq occupied1 &&& occupied1
        pos.see_loop T tSq v 64 stm balance1 true occupied1 attackers

end Pos

/-! ## The position string parser (`Position::set`) and serializer
(`Position::fen`), standard-chess variant. -/

/-- The `PieceToChar` string `" PNBRQK  pnbrqk"`. -/
def pieceChars : List Char :=
  [' ', 'P', 'N', 'B', 'R', 'Q', 'K', ' ', ' ', 'p', 'n', 'b', 'r', 'q', 'k']

def PieceToChar (pc : Nat) : Char := pieceChars.getD pc ' '

/-- `PieceToChar.find(token)`. -/
def pieceCharIdx (ch : Char) : Option Nat :=
  (List.range 15).find? (fun i => pieceChars.getD i ' ' = ch)

/-- `isspace` on the characters a position string can contain. -/
def isSpaceC (ch : Char) : Bool := ch = ' ' ∨ ch = '\t' ∨ ch = '\n' ∨ ch = '\r'

/-- The all-zero `Position` produced by the `std::memset` in
`Position::set` (with the piece lists filled with `SQ_NONE`). -/
def emptyPos (v : Variant) (c960 : Bool) : Pos where
  board := fun _ => 0
  byTypeBB := fun _ => 0
  byColorBB := fun _ => 0
  pieceCount := fun _ => 0
  pieceList := fun _ _ => SQ_NONE
  indexArr := fun _ => 0
  castlingRightsMask := fun _ => 0
  castlingRookSquare := fun _ => 0
  castlingPath := fun _ => 0
  gamePly := 0
  sideToMove := 0
  chess960 := c960
  var := v
  st := StateInfo.zero

/-- Phase 1 of `Position::set`: the piece-placement loop (digits advance,
`/` steps one rank down, piece letters are put; other characters are
skipped; the terminating whitespace is consumed). -/
def parsePlacement : List Char → Pos → Int → Pos × List Char
  | [], pos, _ => (pos, [])
  | ch :: rest, pos, sq =>
    if isSpaceC ch then (pos, rest)
    else if ch.isDigit then parsePlacement rest pos (sq + ((ch.toNat : Int) - 48))
    else if ch = '/' then parsePlacement rest pos (sq - 16)
    else
      match pieceCharIdx ch with
      | some idx => parsePlacement rest (pos.put_piece idx sq.toNat) (sq + 1)
      | none => parsePlacement rest pos sq

def parseOne : List Char → Option Char × List Char
  | [] => (none, [])
  | c :: r => (some c, r)

namespace Pos

/-- `Position::set_castling_right(c, kfrom, rfrom)`. -/
def set_castling_right (pos : Pos) (c kfrom rfrom : Nat) : Pos :=
  let cs := if kfrom < rfrom then 0 else 1
  let cr := 1 <<< (cs + 2 * c)
  let kto := relative_square c (if cs = 0 then 6 else 2)
  let rto := relative_square c (if cs = 0 then 5 else 3)
  let path := (List.range 64).foldr (fun s acc =>
    if ((min rfrom rto ≤ s ∧ s ≤ max rfrom rto) ∨ (min kfrom kto ≤ s ∧ s ≤ max kfrom kto))
        ∧ s ≠ kfrom ∧ s ≠ rfrom then
      acc ||| squareBB s
    else acc) (pos.castlingPath cr)
  { pos with
    st := { pos.st with castlingRights := pos.st.castlingRights ||| cr }
    castlingRightsMask :=
      updF (updF pos.castlingRightsMask kfrom (· ||| cr)) rfrom (· ||| cr)
    castlingRookSquare := Function.update pos.castlingRookSquare cr rfrom
    castlingPath := Function.update pos.castlingPath cr path }

/-- The `'K'`/`'Q'` rook scans of the castling parser (walk from the edge
file towards the king until the rook or the king is met). -/
def scanRook (pos : Pos) (rook ksq : Nat) (step : Int) : Nat → Int → Nat
  | 0, s => s.toNat
  | fuel + 1, s =>
    if s.toNat = ksq ∨ pos.piece_on s.toNat = rook then s.toNat
    else pos.scanRook rook ksq step fuel (s + step)

/-- One token of phase 3 of `Position::set` (castling availability). -/
def applyCastlingToken (pos : Pos) (ch : Char) : Pos :=
  let c := if ch.isLower then 1 else 0
  let rank := relative_rank_r c 0
  let ksq := pos.square_of c 6
  if rank_of ksq ≠ rank then pos
  else
    let rook := make_piece c 4
    let up := ch.toUpper
    let rsq? : Option Nat :=
      if up = 'K' then some (pos.scanRook rook ksq (-1) 8 ((relative_square c 7 : Nat) : Int))
      else if up = 'Q' then some (pos.scanRook rook ksq 1 8 ((relative_square c 0 : Nat) : Int))
      else if 'A' ≤ up ∧ up ≤ 'H' then some (8 * rank + (up.toNat - 65))
      else none
    match rsq? with
    | none => pos
    | some rsq => if rsq ≠ ksq then pos.set_castling_right c ksq rsq else pos

end Pos

/-- Phase 3 of `Position::set`: the castling-availability loop. -/
def parseCastlingLoop : List Char → Pos → Pos × List Char
  | [], pos => (pos, [])
  | ch :: rest, pos =>
    if isSpaceC ch then (pos, rest)
    else parseCastlingLoop rest (pos.applyCastlingToken ch)

/-- 64-bit `shift<NORTH>`. -/
def shiftN (b : Bitboard) : Bitboard := (b <<< 8) % (2 ^ 64)

/-- `shift<SOUTH>`. -/
def shiftS (b : Bitboard) : Bitboard := b >>> 8

namespace Pos

/-- The en-passant normalization of `Position::set` (lines 370–382): the
parsed square is kept only if every filter passes, else it is discarded. -/
def epFilter (pos : Pos) (ep : Nat) : Nat :=
  let stm := pos.sideToMove
  if ¬(pos.attackers_to_d ep &&& pos.piecesCT stm 1 ≠ 0)
      ∨ ¬(pos.piecesCT (stm ^^^ 1) 1 &&& squareBB (((ep : Int) + pawn_push (stm ^^^ 1)).toNat) ≠ 0) then
    SQ_NONE
  else if squareBB ep &&& pos.pieces ≠ 0 then SQ_NONE
  else if stm = 0 ∧ shiftN (squareBB ep) &&& pos.pieces ≠ 0 then SQ_NONE
  else if stm = 1 ∧ shiftS (squareBB ep) &&& pos.pieces ≠ 0 then SQ_NONE
  else if stm = 0 ∧ shiftS (squareBB ep) &&& pos.piecesCT 1 1 = 0 then SQ_NONE
  else if stm = 1 ∧ shiftN (squareBB ep) &&& pos.piecesCT 0 1 = 0 then SQ_NONE
  else ep

end Pos

/-- Phase 4 of `Position::set`: the en-passant field (read a file letter
and, only if valid, a rank digit which must be the opponent-relative third
rank; any other situation stores `SQ_NONE`). -/
def parseEp (cs : List Char) (pos : Pos) : Pos × List Char :=
  let setEp := fun (e : Nat) (rest : List Char) =>
    ({ pos with st := { pos.st with epSquare := e } }, rest)
  match cs with
  | [] => setEp SQ_NONE []
  | col :: rest =>
    if 'a' ≤ col ∧ col ≤ 'h' then
      match rest with
      | [] => setEp SQ_NONE []
      | row :: rest2 =>
        if (if pos.sideToMove = 1 then row = '3' else row = '6') then
          setEp (pos.epFilter (8 * (row.toNat - 49) + (col.toNat - 97))) rest2
        else setEp SQ_NONE rest2
    else setEp SQ_NONE rest

def skipWs : List Char → List Char
  | [] => []
  | c :: r => if isSpaceC c then skipWs r else c :: r

/-- `operator>>(int)`: parse a digit run (0 when no digit is present). -/
def parseNatGo : List Char → Nat → Nat × List Char
  | [], acc => (acc, [])
  | c :: r, acc => if c.isDigit then parseNatGo r (acc * 10 + (c.toNat - 48)) else (acc, c :: r)

def parseNatNum (cs : List Char) : Nat × List Char := parseNatGo cs 0

/-- `Position::set(fenStr, isChess960, v, si, th)` in the standard-chess
variant (no reserve bracket, no check-count field). -/
def setPos (Z : Zob) (T : Tables) (fenStr : String) (isChess960 : Bool) (v : Variant) : Pos :=
  let cs0 := fenStr.toList
  let st1 := parsePlacement cs0 (emptyPos v isChess960) 56
  let stmRead := parseOne st1.2
  let stm := if stmRead.1 = some 'w' then 0 else 1
  let pos2 := { st1.1 with sideToMove := stm }
  let cs3 := (parseOne stmRead.2).2
  let st4 := parseCastlingLoop cs3 pos2
  let st5 := parseEp st4.2 st4.1
  let cs6 := skipWs st5.2
  let r50 := parseNatNum cs6
  let g := parseNatNum (skipWs r50.2)
  let gp := 2 * (g.1 - 1) + (if stm = 1 then 1 else 0)
  let pos5 := { st5.1 with st := { st5.1.st with rule50 := r50.1 }, gamePly := gp }
  { pos5 with st := pos5.set_state Z T pos5.st }

/-! ### `Position::fen()` -/

def digitChar (n : Nat) : Char := Char.ofNat (48 + n)

/-- One rank of the placement field: empty runs become their counts. -/
def fenRankGo (pos : Pos) (r : Nat) : Nat → Nat → Nat → List Char
  | 0, _, cnt => if cnt ≠ 0 then [digitChar cnt] else []
  | fuel + 1, f, cnt =>
    if pos.board (8 * r + f) = 0 then fenRankGo pos r fuel (f + 1) (cnt + 1)
    else
      (if cnt ≠ 0 then [digitChar cnt] else [])
        ++ PieceToChar (pos.board (8 * r + f)) :: fenRankGo pos r fuel (f + 1) 0

def fenPlacement (pos : Pos) : List Char :=
  List.intercalate ['/'] (((List.range 8).reverse).map (fun r => fenRankGo pos r 8 0 0))

def Pos.can_castle (pos : Pos) (cr : Nat) : Bool := pos.st.castlingRights &&& cr ≠ 0

def fenCastling (pos : Pos) : List Char :=
  (if pos.can_castle 1 then
    [if pos.chess960 then Char.ofNat (65 + file_of (pos.castlingRookSquare 1)) else 'K']
   else [])
  ++ (if pos.can_castle 2 then
    [if pos.chess960 then Char.ofNat (65 + file_of (pos.castlingRookSquare 2)) else 'Q']
   else [])
  ++ (if pos.can_castle 4 then
    [if pos.chess960 then Char.ofNat (97 + file_of (pos.castlingRookSquare 4)) else 'k']
   else [])
  ++ (if pos.can_castle 8 then
    [if pos.chess960 then Char.ofNat (97 + file_of (pos.castlingRookSquare 8)) else 'q']
   else [])
  ++ (if ¬pos.can_castle 3 ∧ ¬pos.can_castle 12 then ['-'] else [])

/-- `UCI::square(s)` (from the protocol layer, standard algebraic names). -/
def squareName (s : Nat) : List Char :=
  [Char.ofNat (97 + file_of s), Char.ofNat (49 + rank_of s)]

/-- `Position::fen()` in the standard-chess variant. -/
def fenOf (pos : Pos) : List Char :=
  fenPlacement pos
    ++ (if pos.sideToMove = 0 then " w ".toList else " b ".toList)
    ++ fenCastling pos
    ++ (if pos.ep_square = SQ_NONE then " - ".toList
        else ' ' :: (squareName pos.ep_square ++ [' ']))
    ++ (toString pos.st.rule50).toList ++ [' ']
    ++ (toString (1 + (pos.gamePly - (if pos.sideToMove = 1 then 1 else 0)) / 2)).toList


/-! ## Generic lemmas -/

theorem xor_cancel (a b : Nat) : a ^^^ b ^^^ b = a := by
  rw [Nat.xor_assoc, Nat.xor_self, Nat.xor_zero]

theorem updF_apply {β : Type _} (f : Nat → β) (i : Nat) (g : β → β) (x : Nat) :
    Pos.updF f i g x = if x = i then g (f i) else f x := by
  unfold Pos.updF
  exact Function.update_apply f i (g (f i)) x

/-! ## Concrete fixtures used by witnesses and counterexamples -/

/-- All-zero Zobrist tables (a legitimate instantiation of the startup
tables for witnesses; every key collapses to `0`). -/
def ZZ : Zob where
  psq := fun _ _ => 0
  enpassant := fun _ => 0
  castling := fun _ => 0
  side := 0
  noPawns := 0
  variantTab := fun _ => 0

/-- All-zero evaluation tables. -/
def TZ : Tables where
  psqt := fun _ _ _ => (0, 0)
  pieceValue := fun _ _ => 0

/-- A concrete `StateInfo` with no pending state (keys `0`, matching the
all-zero Zobrist tables). -/
def stBase : StateInfo where
  pawnKey := 0
  materialKey := 0
  nonPawnMaterial := fun _ => 0
  castlingRights := 0
  rule50 := 0
  pliesFromNull := 0
  psq := (0, 0)
  epSquare := SQ_NONE
  key := 0
  checkersBB := 0
  capturedPiece := 0
  previous := none
  blockersForKing := fun _ => 0
  pinnersForKing := fun _ => 0
  checkSquares := fun _ => 0

/-- A concrete position: white Ke1 Rh1, black Ke8 Rh8, White to move,
White may castle kingside. -/
def posOO : Pos where
  board := fun s => if s = 4 then 6 else if s = 7 then 4 else
    if s = 60 then 14 else if s = 63 then 12 else 0
  byTypeBB := fun t =>
    if t = 0 then squareBB 4 ||| squareBB 7 ||| squareBB 60 ||| squareBB 63
    else if t = 4 then squareBB 7 ||| squareBB 63
    else if t = 6 then squareBB 4 ||| squareBB 60
    else 0
  byColorBB := fun c =>
    if c = 0 then squareBB 4 ||| squareBB 7 else squareBB 60 ||| squareBB 63
  pieceCount := fun pc =>
    if pc = 4 ∨ pc = 12 ∨ pc = 6 ∨ pc = 14 then 1 else if pc = 0 ∨ pc = 8 then 2 else 0
  pieceList := fun pc i =>
    if pc = 4 ∧ i = 0 then 7 else if pc = 12 ∧ i = 0 then 63
    else if pc = 6 ∧ i = 0 then 4 else if pc = 14 ∧ i = 0 then 60 else SQ_NONE
  indexArr := fun _ => 0
  castlingRightsMask := fun s => if s = 4 ∨ s = 7 then 1 else 0
  castlingRookSquare := fun cr => if cr = 1 then 7 else 0
  castlingPath := fun cr => if cr = 1 then squareBB 5 ||| squareBB 6 else 0
  gamePly := 0
  sideToMove := 0
  chess960 := false
  var := Variant.chess
  st := { stBase with castlingRights := 1 }

/-- The same position under crazyhouse rules. -/
def posOOh : Pos := { posOO with var := Variant.crazyhouse }

/-- White castles kingside ("king captures own rook" encoding). -/
def castleOO : Move := { fromSq := 4, toSq := 7, kind := 3, promo := 0 }

/-! ## C9: null moves -/

/-- C9: `do_null_move`, callable only when the side to move is not in
check, flips the side to move and clears the en-passant square while
moving no piece: the board array, all bitboards, piece lists, and castling
rights are unchanged; `undo_null_move` then restores the exact prior state
(state pointer and side to move). -/
theorem C9_null_move (Z : Zob) (pos : Pos) (hnc : pos.checkers = 0) :
    (pos.do_null_move Z).sideToMove = pos.sideToMove ^^^ 1 ∧
    (pos.do_null_move Z).st.epSquare = SQ_NONE ∧
    (pos.do_null_move Z).board = pos.board ∧
    (pos.do_null_move Z).byTypeBB = pos.byTypeBB ∧
    (pos.do_null_move Z).byColorBB = pos.byColorBB ∧
    (pos.do_null_move Z).pieceList = pos.pieceList ∧
    (pos.do_null_move Z).st.castlingRights = pos.st.castlingRights ∧
    (pos.do_null_move Z).undo_null_move = pos := by
  clear hnc
  refine ⟨rfl, ?_, rfl, rfl, rfl, rfl, ?_, ?_⟩
  · by_cases h : pos.st.epSquare = SQ_NONE <;>
      simp [Pos.do_null_move, Pos.set_check_info, h]
  · by_cases h : pos.st.epSquare = SQ_NONE <;>
      simp [Pos.do_null_move, Pos.set_check_info, h]
  · cases pos with
    | mk board byTypeBB byColorBB pieceCount pieceList indexArr crm crs cp gp stm c960 v st =>
      by_cases h : st.epSquare = SQ_NONE <;>
        simp [Pos.do_null_move, Pos.undo_null_move, Pos.set_check_info, h, xor_cancel]

/-- Witness for C9 at a concrete position (`posOO` is not in check). -/
theorem C9_null_move_witness :
    posOO.checkers = 0 ∧ (posOO.do_null_move ZZ).undo_null_move = posOO :=
  ⟨rfl, (C9_null_move ZZ posOO rfl).2.2.2.2.2.2.2⟩

/-! ## C7: `see_ge` on castling moves -/

/-- C7 is false as stated: in the crazyhouse variant the threshold is
halved before the castling special case, so at `v = 1` the call returns
`true` although `0 ≥ 1` fails. -/
theorem C7_castling_counterexample :
    posOOh.see_ge TZ castleOO 1 = true ∧ ¬((0 : Int) ≥ 1) := by
  constructor
  · decide
  · decide

/-- C7 (amended): for every castling move `m` and every threshold `v`,
`see_ge(m, v)` treats the move as having static exchange value zero
against the variant-adjusted threshold: it returns true exactly when
`0 ≥ v` — except that in crazyhouse the threshold is first halved by C++
integer division (true exactly when `0 ≥ v/2`), and in three-check a
castling move of the side to move that gives check returns true
regardless of the threshold. -/
theorem C7_castling_see_ge (T : Tables) (pos : Pos) (m : Move) (v : Int)
    (hk : m.kind = 3) :
    pos.see_ge T m v =
      (decide (is_three_check pos.var = true
          ∧ color_of (pos.board m.fromSq) = pos.sideToMove ∧ pos.gives_check m = true)
        || decide ((0 : Int) ≥ (if is_house pos.var then Int.tdiv v 2 else v))) := by
  by_cases h3 : is_three_check pos.var = true
      ∧ color_of (pos.board m.fromSq) = pos.sideToMove ∧ pos.gives_check m = true <;>
    simp [Pos.see_ge, h3, hk]

/-- Witness for the amended C7 in the standard-chess variant at `v = 0`. -/
theorem C7_castling_see_ge_witness :
    posOO.see_ge TZ castleOO 0 =
      (decide (is_three_check posOO.var = true
          ∧ color_of (posOO.board castleOO.fromSq) = posOO.sideToMove
          ∧ posOO.gives_check castleOO = true)
        || decide ((0 : Int) ≥ (if is_house posOO.var then Int.tdiv 0 2 else 0))) :=
  C7_castling_see_ge TZ posOO castleOO 0 rfl


/-! ## Board/bitboard consistency and pseudo-legality hypotheses -/

/-- The redundancy invariant between `board`, the bitboard views and the
piece counts (spec §3 invariant 1; `pos_is_ok` steps `Bitboards`/`Lists`).
All theorems about `do_move`/`undo_move` assume it. -/
def Consistent (pos : Pos) : Prop :=
  (∀ s, s < 64 → pos.board s < 16 ∧ type_of (pos.board s) ≤ 6
    ∧ (pos.board s ≠ 0 → 1 ≤ type_of (pos.board s))) ∧
  (∀ s, s < 64 → ((pos.byTypeBB 0).testBit s ↔ pos.board s ≠ 0)) ∧
  (∀ s, s < 64 → ∀ t, 1 ≤ t → t ≤ 6 →
    ((pos.byTypeBB t).testBit s ↔ pos.board s ≠ 0 ∧ type_of (pos.board s) = t)) ∧
  (∀ s, s < 64 → ∀ c, c < 2 →
    ((pos.byColorBB c).testBit s ↔ pos.board s ≠ 0 ∧ color_of (pos.board s) = c)) ∧
  (∀ pc, pc < 16 → type_of pc ≠ 0 →
    pos.pieceCount pc = ((List.range 64).filter (fun s => pos.board s = pc)).length)

/-- The facts `do_move` assumes about its argument in the standard-chess
variant: its runtime asserts plus the geometric shape of each move kind
(established upstream by the move generator and `legal`). -/
def MoveOk (pos : Pos) (m : Move) : Prop :=
  pos.var = Variant.chess ∧ pos.sideToMove < 2 ∧
  m.fromSq < 64 ∧ m.toSq < 64 ∧ m.fromSq ≠ m.toSq ∧
  ((m.kind = 0 ∧
      pos.board m.fromSq ≠ 0 ∧ color_of (pos.board m.fromSq) = pos.sideToMove ∧
      (pos.board m.toSq = 0 ∨ color_of (pos.board m.toSq) = pos.sideToMove ^^^ 1) ∧
      type_of (pos.board m.toSq) ≠ 6 ∧
      (type_of (pos.board m.fromSq) = 1 →
        (if pos.sideToMove = 0 then
          (m.toSq = m.fromSq + 8 ∧ pos.board m.toSq = 0)
            ∨ (m.toSq = m.fromSq + 16 ∧ rank_of m.fromSq = 1 ∧ pos.board m.toSq = 0)
            ∨ ((m.toSq = m.fromSq + 7 ∨ m.toSq = m.fromSq + 9) ∧ pos.board m.toSq ≠ 0)
         else
          (m.toSq + 8 = m.fromSq ∧ pos.board m.toSq = 0)
            ∨ (m.toSq + 16 = m.fromSq ∧ rank_of m.fromSq = 6 ∧ pos.board m.toSq = 0)
            ∨ ((m.toSq + 7 = m.fromSq ∨ m.toSq + 9 = m.fromSq) ∧ pos.board m.toSq ≠ 0)) ∧
        rank_of m.toSq ≠ relative_rank_r pos.sideToMove 7))
  ∨ (m.kind = 1 ∧
      pos.board m.fromSq = make_piece pos.sideToMove 1 ∧
      2 ≤ m.promo ∧ m.promo ≤ 5 ∧
      (pos.board m.toSq = 0 ∨ color_of (pos.board m.toSq) = pos.sideToMove ^^^ 1) ∧
      type_of (pos.board m.toSq) ≠ 6 ∧
      (if pos.sideToMove = 0 then
        m.toSq = m.fromSq + 8 ∨ m.toSq = m.fromSq + 7 ∨ m.toSq = m.fromSq + 9
       else m.toSq + 8 = m.fromSq ∨ m.toSq + 7 = m.fromSq ∨ m.toSq + 9 = m.fromSq) ∧
      rank_of m.toSq = relative_rank_r pos.sideToMove 7)
  ∨ (m.kind = 2 ∧
      pos.board m.fromSq = make_piece pos.sideToMove 1 ∧
      m.toSq = pos.st.epSquare ∧ pos.board m.toSq = 0 ∧
      rank_of m.toSq = relative_rank_r pos.sideToMove 5 ∧
      (if pos.sideToMove = 0 then m.toSq = m.fromSq + 7 ∨ m.toSq = m.fromSq + 9
       else m.toSq + 7 = m.fromSq ∨ m.toSq + 9 = m.fromSq) ∧
      pos.board (((m.toSq : Int) - pawn_push pos.sideToMove).toNat)
        = make_piece (pos.sideToMove ^^^ 1) 1)
  ∨ (m.kind = 3 ∧
      pos.board m.fromSq = make_piece pos.sideToMove 6 ∧
      pos.board m.toSq = make_piece pos.sideToMove 4 ∧
      rank_of m.fromSq = relative_rank_r pos.sideToMove 0 ∧
      rank_of m.toSq = relative_rank_r pos.sideToMove 0 ∧
      (pos.board (Pos.castle_squares pos.sideToMove m.fromSq m.toSq).1 = 0
        ∨ (Pos.castle_squares pos.sideToMove m.fromSq m.toSq).1 = m.fromSq
        ∨ (Pos.castle_squares pos.sideToMove m.fromSq m.toSq).1 = m.toSq) ∧
      (pos.board (Pos.castle_squares pos.sideToMove m.fromSq m.toSq).2.2 = 0
        ∨ (Pos.castle_squares pos.sideToMove m.fromSq m.toSq).2.2 = m.fromSq
        ∨ (Pos.castle_squares pos.sideToMove m.fromSq m.toSq).2.2 = m.toSq)))

/-! ## Small square-arithmetic lemmas -/

theorem xor_odd_ne16 (f d : Nat) (hd : d % 2 = 1) : (f + d) ^^^ f ≠ 16 := by
  intro h
  have h0 : ((f + d) ^^^ f).testBit 0 = (16 : Nat).testBit 0 := by rw [h]
  have h16 : (16 : Nat).testBit 0 = false := by decide
  rw [Nat.testBit_xor, h16, Nat.testBit_zero, Nat.testBit_zero, bne_eq_false_iff_eq] at h0
  have := decide_eq_decide.mp h0
  omega

theorem xor_add8_ne16 (f : Nat) : (f + 8) ^^^ f ≠ 16 := by
  intro h
  have h3 : ((f + 8) ^^^ f).testBit 3 = (16 : Nat).testBit 3 := by rw [h]
  have h16 : (16 : Nat).testBit 3 = false := by decide
  rw [Nat.testBit_xor, h16, Nat.testBit_to_div_mod, Nat.testBit_to_div_mod,
    bne_eq_false_iff_eq] at h3
  have := decide_eq_decide.mp h3
  omega

/-! ## C4: the fifty-move branch of `is_draw` -/

/-- C4: `is_draw` returns true by the fifty-move rule exactly when the
rule-50 counter exceeds its threshold of 99 halfmoves and the side to move
is not in check or at least one legal move exists; the other component of
the disjunction is the repetition walk, so in particular with no captures
or pawn moves for 100 halfmoves (rule-50 counter ≥ 100) the fifty-move
branch fires at or after the 100th halfmove and never before. -/
theorem C4_fifty_move (pos : Pos) (ply : Int) (lm : Bool) :
    pos.is_draw ply lm
      = (decide (99 < pos.st.rule50) && (decide (pos.checkers = 0) || lm)
         || pos.rep_part ply) := by
  by_cases h1 : 99 < pos.st.rule50 <;> by_cases h2 : pos.checkers = 0 <;> cases lm <;>
    simp [Pos.is_draw, h1, h2]


theorem type_make (c t : Nat) (ht : t < 8) : type_of (make_piece c t) = t := by
  simp only [make_piece, type_of]
  omega

theorem color_make (c t : Nat) (ht : t < 8) : color_of (make_piece c t) = c := by
  simp only [make_piece, color_of]
  omega

/-- A word with bits `f` and `t` clear is disjoint from the from/to pair. -/
theorem and_ftbb_zero (cb f t : Nat) (hf : cb.testBit f = false)
    (ht : cb.testBit t = false) :
    cb &&& (squareBB f ^^^ squareBB t) = 0 := by
  apply Nat.eq_of_testBit_eq
  intro i
  rw [Nat.testBit_land, Nat.testBit_xor, Nat.zero_testBit]
  simp only [squareBB, Nat.testBit_two_pow]
  by_cases h1 : f = i
  · subst h1
    simp [hf]
  · by_cases h2 : t = i
    · subst h2
      simp [ht]
    · simp [h1, h2]

/-- A pawn step whose from/to codes XOR to 16 is a double push, and the
square behind the destination is the midpoint. -/
theorem pawn_double_shape (us f t : Nat) (hus : us < 2)
    (hgeom : if us = 0 then
        (t = f + 8) ∨ (t = f + 16) ∨ (t = f + 7 ∨ t = f + 9)
      else (t + 8 = f) ∨ (t + 16 = f) ∨ (t + 7 = f ∨ t + 9 = f))
    (hx : t ^^^ f = 16) :
    (if us = 0 then t = f + 16 else t + 16 = f) ∧
      ((t : Int) - pawn_push us).toNat = (f + t) / 2 := by
  have hus2 : us = 0 ∨ us = 1 := by omega
  rcases hus2 with h | h <;> subst h
  · rw [if_pos rfl] at hgeom
    rw [if_pos rfl]
    rcases hgeom with h8 | h16 | h79
    · exact absurd hx (h8 ▸ xor_add8_ne16 f)
    · subst h16
      refine ⟨rfl, ?_⟩
      simp only [pawn_push, if_pos rfl, if_true]
      rw [show ((f + 16 : Nat) : Int) - 8 = ((f + 8 : Nat) : Int) by push_cast; ring,
        Int.toNat_natCast]
      omega
    · rcases h79 with h7 | h9
      · exact absurd hx (h7 ▸ xor_odd_ne16 f 7 (by norm_num))
      · exact absurd hx (h9 ▸ xor_odd_ne16 f 9 (by norm_num))
  · rw [if_neg (by omega)] at hgeom
    rw [if_neg (by omega)]
    rcases hgeom with h8 | h16 | h79
    · rw [← h8, Nat.xor_comm] at hx
      exact absurd hx (xor_add8_ne16 t)
    · refine ⟨h16, ?_⟩
      simp only [pawn_push, if_neg (by omega : ¬(1 : Nat) = 0)]
      rw [show ((t : Nat) : Int) - (-8) = ((t + 8 : Nat) : Int) by push_cast; ring,
        Int.toNat_natCast]
      omega
    · rcases h79 with h7 | h9
      · rw [← h7, Nat.xor_comm] at hx
        exact absurd hx (xor_odd_ne16 t 7 (by norm_num))
      · rw [← h9, Nat.xor_comm] at hx
        exact absurd hx (xor_odd_ne16 t 9 (by norm_num))


/-- Propositional `if` statements are decidable when both branches are. -/
instance decidableIteProp (c : Prop) [dc : Decidable c] (p q : Prop)
    [Decidable p] [Decidable q] : Decidable (if c then p else q) :=
  match dc with
  | Decidable.isTrue h => by rw [if_pos h]; infer_instance
  | Decidable.isFalse h => by rw [if_neg h]; infer_instance

theorem ne_xor_one (us : Nat) (h : us < 2) : us ≠ us ^^^ 1 := by
  interval_cases us <;> decide

theorem piecesCT_move_pawn (pos : Pos) (us f t : Nat) (hus : us < 2)
    (hf : (pos.byColorBB (us ^^^ 1)).testBit f = false)
    (ht : (pos.byColorBB (us ^^^ 1)).testBit t = false)
    (pc : Nat) (hcol : color_of pc = us) (htyp : type_of pc = 1) :
    (pos.move_piece pc f t).piecesCT (us ^^^ 1) 1 = pos.piecesCT (us ^^^ 1) 1 := by
  unfold Pos.move_piece Pos.piecesCT
  simp only [hcol, htyp]
  rw [updF_apply, if_neg (ne_xor_one us hus).symm]
  rw [updF_apply, if_pos rfl]
  rw [updF_apply, if_neg (by omega : (1 : Nat) ≠ 0)]
  rw [Nat.and_xor_distrib_left, and_ftbb_zero _ _ _ hf ht, Nat.xor_zero]

/-- C8: after `do_move` completes, the new state's en-passant square is
set (to the square midway between origin and destination) exactly when the
move was a pawn double push and an enemy pawn stands on an adjacent file
of the landing rank so that it attacks that midway square (the bitboard
condition below); after every other move the en-passant square is
`SQ_NONE`. -/
theorem C8_ep_square (Z : Zob) (T : Tables) (pos : Pos) (m : Move) (gc : Bool)
    (hcons : Consistent pos) (hm : MoveOk pos m) :
    (pos.do_move Z T m gc).st.epSquare =
      if type_of (pos.board m.fromSq) = 1 ∧ (m.toSq ^^^ m.fromSq) = 16
          ∧ pawnAttacks pos.sideToMove ((m.fromSq + m.toSq) / 2)
              &&& pos.piecesCT (pos.sideToMove ^^^ 1) 1 ≠ 0 then
        (m.fromSq + m.toSq) / 2
      else SQ_NONE := by
  obtain ⟨hv, hus, hf64, ht64, hft, hkind⟩ := hm
  obtain ⟨hrange, hall, htype, hcolor, hcount⟩ := hcons
  rcases hkind with ⟨hk, hne, hcol, hcap, hcapk, hpawn⟩ |
    ⟨hk, hpc, hpl, hpu, hcap, hcapk, hgeom, hrank⟩ |
    ⟨hk, hpc, hept, hbe, hrank, hgeom, hcapb⟩ |
    ⟨hk, hbf, hbt, hrf, hrt, hkto, hrto⟩
  · -- NORMAL
    by_cases hp1 : type_of (pos.board m.fromSq) = 1
    · have hsh := hpawn hp1
      by_cases hx : (m.toSq ^^^ m.fromSq) = 16
      · -- the double-push branch
        have hthem : pos.sideToMove ^^^ 1 < 2 := by
          rcases (by omega : pos.sideToMove = 0 ∨ pos.sideToMove = 1) with h | h <;> simp [h]
        have hcbf : (pos.byColorBB (pos.sideToMove ^^^ 1)).testBit m.fromSq = false := by
          have hiff := hcolor m.fromSq hf64 (pos.sideToMove ^^^ 1) hthem
          refine Bool.not_eq_true _ |>.mp (fun h => ?_)
          have h2 := (hiff.mp h).2
          rw [hcol] at h2
          exact ne_xor_one _ hus h2
        rcases (by omega : pos.sideToMove = 0 ∨ pos.sideToMove = 1) with h0 | h0
        · rw [if_pos h0] at hsh
          obtain ⟨hshape, -⟩ := hsh
          rcases hshape with ⟨h8, -⟩ | ⟨h16, -, hb0⟩ | ⟨h79, -⟩
          · exact absurd hx (h8 ▸ xor_add8_ne16 m.fromSq)
          · have htnat : ((m.toSq : Int) - pawn_push pos.sideToMove).toNat
                = (m.fromSq + m.toSq) / 2 := by
              have hpp : pawn_push pos.sideToMove = 8 := by rw [h0]; rfl
              rw [h16, hpp]
              omega
            have hcbt : (pos.byColorBB (pos.sideToMove ^^^ 1)).testBit m.toSq = false := by
              have hiff := hcolor m.toSq ht64 (pos.sideToMove ^^^ 1) hthem
              refine Bool.not_eq_true _ |>.mp (fun h => ?_)
              exact (hiff.mp h).1 hb0
            have hmask := piecesCT_move_pawn pos pos.sideToMove m.fromSq m.toSq hus
              hcbf hcbt (pos.board m.fromSq) hcol hp1
            simp [Pos.do_move, Pos.set_check_info, hk, hp1, hx, hb0, htnat]
            rw [hmask]
            by_cases hmz : pawnAttacks pos.sideToMove ((m.fromSq + m.toSq) / 2)
                &&& pos.piecesCT (pos.sideToMove ^^^ 1) 1 = 0 <;>
              simp [hmz, hx, hp1, hb0, htnat, hmask]
          · rcases h79 with h7 | h9
            · exact absurd hx (h7 ▸ xor_odd_ne16 m.fromSq 7 (by norm_num))
            · exact absurd hx (h9 ▸ xor_odd_ne16 m.fromSq 9 (by norm_num))
        · rw [if_neg (by omega)] at hsh
          obtain ⟨hshape, -⟩ := hsh
          rcases hshape with ⟨h8, -⟩ | ⟨h16, -, hb0⟩ | ⟨h79, -⟩
          · rw [← h8, Nat.xor_comm] at hx
            exact absurd hx (xor_add8_ne16 m.toSq)
          · have htnat : ((m.toSq : Int) - pawn_push pos.sideToMove).toNat
                = (m.fromSq + m.toSq) / 2 := by
              have hpp : pawn_push pos.sideToMove = -8 := by rw [h0]; rfl
              rw [hpp]
              omega
            have hcbt : (pos.byColorBB (pos.sideToMove ^^^ 1)).testBit m.toSq = false := by
              have hiff := hcolor m.toSq ht64 (pos.sideToMove ^^^ 1) hthem
              refine Bool.not_eq_true _ |>.mp (fun h => ?_)
              exact (hiff.mp h).1 hb0
            have hmask := piecesCT_move_pawn pos pos.sideToMove m.fromSq m.toSq hus
              hcbf hcbt (pos.board m.fromSq) hcol hp1
            simp [Pos.do_move, Pos.set_check_info, hk, hp1, hx, hb0, htnat]
            rw [hmask]
            by_cases hmz : pawnAttacks pos.sideToMove ((m.fromSq + m.toSq) / 2)
                &&& pos.piecesCT (pos.sideToMove ^^^ 1) 1 = 0 <;>
              simp [hmz, hx, hp1, hb0, htnat, hmask]
          · rcases h79 with h7 | h9
            · rw [← h7, Nat.xor_comm] at hx
              exact absurd hx (xor_odd_ne16 m.toSq 7 (by norm_num))
            · rw [← h9, Nat.xor_comm] at hx
              exact absurd hx (xor_odd_ne16 m.toSq 9 (by norm_num))
      · simp [Pos.do_move, Pos.set_check_info, hk, hp1, hx]
    · simp [Pos.do_move, Pos.set_check_info, hk, hp1]
  · -- PROMOTION
    have h1 : type_of (pos.board m.fromSq) = 1 := by
      rw [hpc]
      exact type_make _ 1 (by omega)
    have hxne : ¬(m.toSq ^^^ m.fromSq) = 16 := by
      rcases (by omega : pos.sideToMove = 0 ∨ pos.sideToMove = 1) with h0 | h0
      · rw [if_pos h0] at hgeom
        rcases hgeom with h | h | h
        · exact h ▸ xor_add8_ne16 m.fromSq
        · exact h ▸ xor_odd_ne16 m.fromSq 7 (by norm_num)
        · exact h ▸ xor_odd_ne16 m.fromSq 9 (by norm_num)
      · rw [if_neg (by omega)] at hgeom
        rcases hgeom with h | h | h
        · rw [← h, Nat.xor_comm]
          exact xor_add8_ne16 m.toSq
        · rw [← h, Nat.xor_comm]
          exact xor_odd_ne16 m.toSq 7 (by norm_num)
        · rw [← h, Nat.xor_comm]
          exact xor_odd_ne16 m.toSq 9 (by norm_num)
    simp [Pos.do_move, Pos.set_check_info, hk, h1, hxne]
  · -- ENPASSANT
    have h1 : type_of (pos.board m.fromSq) = 1 := by
      rw [hpc]
      exact type_make _ 1 (by omega)
    have hxne : ¬(m.toSq ^^^ m.fromSq) = 16 := by
      rcases (by omega : pos.sideToMove = 0 ∨ pos.sideToMove = 1) with h0 | h0
      · rw [if_pos h0] at hgeom
        rcases hgeom with h | h
        · exact h ▸ xor_odd_ne16 m.fromSq 7 (by norm_num)
        · exact h ▸ xor_odd_ne16 m.fromSq 9 (by norm_num)
      · rw [if_neg (by omega)] at hgeom
        rcases hgeom with h | h
        · rw [← h, Nat.xor_comm]
          exact xor_odd_ne16 m.toSq 7 (by norm_num)
        · rw [← h, Nat.xor_comm]
          exact xor_odd_ne16 m.toSq 9 (by norm_num)
    simp [Pos.do_move, Pos.set_check_info, hk, h1, hxne]
  · -- CASTLING
    have h6 : type_of (pos.board m.fromSq) = 6 := by
      rw [hbf]
      exact type_make _ 6 (by omega)
    simp [Pos.do_move, Pos.set_check_info, hk, h6]


/-- A concrete position for the en-passant witness: white Ke1, Pc2;
black Ka8, Pd4; White to move. -/
def posEpW : Pos where
  board := fun s => if s = 4 then 6 else if s = 10 then 1 else
    if s = 56 then 14 else if s = 27 then 9 else 0
  byTypeBB := fun t =>
    if t = 0 then squareBB 4 ||| squareBB 10 ||| squareBB 56 ||| squareBB 27
    else if t = 1 then squareBB 10 ||| squareBB 27
    else if t = 6 then squareBB 4 ||| squareBB 56
    else 0
  byColorBB := fun c =>
    if c = 0 then squareBB 4 ||| squareBB 10 else squareBB 56 ||| squareBB 27
  pieceCount := fun pc =>
    if pc = 1 ∨ pc = 9 ∨ pc = 6 ∨ pc = 14 then 1 else if pc = 0 ∨ pc = 8 then 2 else 0
  pieceList := fun pc i =>
    if pc = 1 ∧ i = 0 then 10 else if pc = 9 ∧ i = 0 then 27
    else if pc = 6 ∧ i = 0 then 4 else if pc = 14 ∧ i = 0 then 56 else SQ_NONE
  indexArr := fun _ => 0
  castlingRightsMask := fun _ => 0
  castlingRookSquare := fun _ => 0
  castlingPath := fun _ => 0
  gamePly := 0
  sideToMove := 0
  chess960 := false
  var := Variant.chess
  st := stBase

/-- The double push c2–c4. -/
def mDbl : Move := { fromSq := 10, toSq := 26, kind := 0, promo := 0 }


set_option synthInstance.maxSize 2000 in
/-- Witness for C8: the double push c2–c4 in `posEpW` creates the
en-passant opportunity on c3 (the black d4-pawn attacks it). -/
theorem C8_ep_square_witness :
    Consistent posEpW ∧ MoveOk posEpW mDbl ∧
    (posEpW.do_move ZZ TZ mDbl false).st.epSquare =
      (if type_of (posEpW.board mDbl.fromSq) = 1 ∧ (mDbl.toSq ^^^ mDbl.fromSq) = 16
          ∧ pawnAttacks posEpW.sideToMove ((mDbl.fromSq + mDbl.toSq) / 2)
              &&& posEpW.piecesCT (posEpW.sideToMove ^^^ 1) 1 ≠ 0 then
        (mDbl.fromSq + mDbl.toSq) / 2
      else SQ_NONE) :=
  ⟨by unfold Consistent; decide, by unfold MoveOk; decide,
    C8_ep_square ZZ TZ posEpW mDbl false (by unfold Consistent; decide)
      (by unfold MoveOk; decide)⟩


/-! ## C3: repetition detection -/

/-- The key stored `i` plies up the State Record Chain. -/
def KeyAt (st : StateInfo) (i : Nat) : Option Key := (st.prevN i).map (·.key)

/-- The position key `i` plies back equals the current one. -/
def RepMatchAt (st : StateInfo) (i : Nat) : Prop := KeyAt st i = some st.key

/-- C3 as stated: a repetition draw is reported exactly when the current
key recurs at a state strictly earlier in the chain at the same side to
move (even distance, walking two plies at a time starting four back),
counted once if the repetition point is less than `ply` plies back and
twice otherwise. -/
def RepClaim (pos : Pos) (ply : Int) : Prop :=
  ∃ o, 4 ≤ o ∧ o % 2 = 0 ∧ RepMatchAt pos.st o ∧
    ((o : Int) < ply ∨ ∃ j, 4 ≤ j ∧ j < o ∧ j % 2 = 0 ∧ RepMatchAt pos.st j)

/-- The amended form: the walk is capped by
`min(rule50, pliesFromNull)`. -/
def RepWindow (pos : Pos) (ply : Int) : Prop :=
  ∃ o, 4 ≤ o ∧ o ≤ min pos.st.rule50 pos.st.pliesFromNull ∧ o % 2 = 0 ∧
    RepMatchAt pos.st o ∧
    ((o : Int) < ply ∨ ∃ j, 4 ≤ j ∧ j < o ∧ j % 2 = 0 ∧ RepMatchAt pos.st j)

theorem prevN_succ_right (st : StateInfo) (k : Nat) :
    st.prevN (k + 1) = (st.prevN k).bind (·.previous) := by
  induction k generalizing st with
  | zero =>
    cases h : st.previous <;> simp [StateInfo.prevN, h]
  | succ k ih =>
    cases h : st.previous with
    | none => simp [StateInfo.prevN, h]
    | some p =>
      have e1 : st.prevN (k + 1 + 1) = p.prevN (k + 1) := by
        simp [StateInfo.prevN, h]
      have e2 : st.prevN (k + 1) = p.prevN k := by
        simp [StateInfo.prevN, h]
      rw [e1, ih p, e2]

theorem prevN_step2 (st : StateInfo) (k : Nat) :
    ((st.prevN k).bind (·.previous)).bind (·.previous) = st.prevN (k + 2) := by
  rw [show k + 2 = k + 1 + 1 from rfl, prevN_succ_right, prevN_succ_right]

/-- The loop invariant equivalence for the repetition walk. -/
theorem goRep_iff (st : StateInfo) (ply : Int) (E : Nat)
    (hch : ∀ k, k ≤ E → (st.prevN k).isSome = true) :
    ∀ iters i cnt stp,
      4 ≤ i → i % 2 = 0 → i + 2 * iters = E + 2 →
      stp = st.prevN (i - 2) →
      ((cnt = 0 ∧ (∀ j, 4 ≤ j → j < i → j % 2 = 0 → ¬RepMatchAt st j))
        ∨ (cnt = 1 ∧ ∃ j, 4 ≤ j ∧ j < i ∧ j % 2 = 0 ∧ RepMatchAt st j ∧ ¬((j : Int) < ply))) →
      (goRep st.key ply iters i cnt stp = true ↔
        ∃ o, i ≤ o ∧ o ≤ E ∧ o % 2 = 0 ∧ RepMatchAt st o ∧
          ((o : Int) < ply ∨ cnt = 1
            ∨ ∃ j, i ≤ j ∧ j < o ∧ j % 2 = 0 ∧ RepMatchAt st j)) := by
  intro iters
  induction iters with
  | zero =>
    intro i cnt stp h4 hev hsum _ _
    simp only [goRep, Bool.false_eq_true, false_iff]
    rintro ⟨o, ho1, ho2, -, -, -⟩
    omega
  | succ iters ih =>
    intro i cnt stp h4 hev hsum hstp hinv
    have hiE : i ≤ E := by omega
    have hsome := hch i hiE
    obtain ⟨sp, hsp⟩ := Option.isSome_iff_exists.mp hsome
    have hstep : (stp.bind (·.previous)).bind (·.previous) = some sp := by
      rw [hstp, prevN_step2, show i - 2 + 2 = i by omega, hsp]
    simp only [goRep, hstep]
    by_cases hm : sp.key = st.key
    · have hmatch : RepMatchAt st i := by
        simp [RepMatchAt, KeyAt, hsp, hm]
      rcases hinv with ⟨hc0, hnone⟩ | ⟨hc1, j₀, hj₀4, hj₀i, hj₀e, hj₀m, hj₀p⟩
      · subst hc0
        by_cases hply : (ply : Int) - (i : Int) > 0
        · rw [if_pos ⟨hm, by rw [if_pos hply]⟩]
          simp only [true_iff]
          exact ⟨i, le_refl i, hiE, hev, hmatch, Or.inl (by omega)⟩
        · rw [if_neg (by rw [if_neg hply]; rintro ⟨-, h⟩; omega)]
          rw [if_pos hm]
          rw [ih (i + 2) 1 (some sp) (by omega) (by omega) (by omega)
            (by rw [show i + 2 - 2 = i by omega, hsp])
            (Or.inr ⟨rfl, i, h4, by omega, hev, hmatch, by omega⟩)]
          constructor
          · rintro ⟨o, ho1, ho2, ho3, ho4, -⟩
            exact ⟨o, by omega, ho2, ho3, ho4,
              Or.inr (Or.inr ⟨i, le_refl i, by omega, hev, hmatch⟩)⟩
          · rintro ⟨o, ho1, ho2, ho3, ho4, hd⟩
            rcases Nat.eq_or_lt_of_le ho1 with he | hlt
            · exfalso
              rcases hd with h | h | ⟨j, hj1, hj2, -, -⟩
              · omega
              · omega
              · omega
            · exact ⟨o, by omega, ho2, ho3, ho4, Or.inr (Or.inl rfl)⟩
      · subst hc1
        have hiply : ¬((i : Int) < ply) := by omega
        rw [if_pos ⟨hm, by rw [if_neg (by omega : ¬((ply : Int) - (i : Int) > 0))]⟩]
        simp only [true_iff]
        exact ⟨i, le_refl i, hiE, hev, hmatch, Or.inr (Or.inl trivial)⟩
    · have hnm : ¬RepMatchAt st i := by
        simp [RepMatchAt, KeyAt, hsp]
        exact hm
      rw [if_neg (by rintro ⟨h, -⟩; exact hm h)]
      rw [if_neg hm]
      have hinv2 : (cnt = 0 ∧ (∀ j, 4 ≤ j → j < i + 2 → j % 2 = 0 → ¬RepMatchAt st j))
          ∨ (cnt = 1 ∧ ∃ j, 4 ≤ j ∧ j < i + 2 ∧ j % 2 = 0 ∧ RepMatchAt st j
              ∧ ¬((j : Int) < ply)) := by
        rcases hinv with ⟨hc0, hnone⟩ | ⟨hc1, j₀, hj₀4, hj₀i, hj₀e, hj₀m, hj₀p⟩
        · refine Or.inl ⟨hc0, fun j hj4 hji hje hjm => ?_⟩
          rcases Nat.lt_or_ge j i with h | h
          · exact hnone j hj4 h hje hjm
          · have : j = i := by omega
            exact hnm (this ▸ hjm)
        · exact Or.inr ⟨hc1, j₀, hj₀4, by omega, hj₀e, hj₀m, hj₀p⟩
      rw [ih (i + 2) cnt (some sp) (by omega) (by omega) (by omega)
        (by rw [show i + 2 - 2 = i by omega, hsp]) hinv2]
      constructor
      · rintro ⟨o, ho1, ho2, ho3, ho4, hd⟩
        refine ⟨o, by omega, ho2, ho3, ho4, ?_⟩
        rcases hd with h | h | ⟨j, hj1, hj2, hj3, hj4⟩
        · exact Or.inl h
        · exact Or.inr (Or.inl h)
        · exact Or.inr (Or.inr ⟨j, by omega, hj2, hj3, hj4⟩)
      · rintro ⟨o, ho1, ho2, ho3, ho4, hd⟩
        have hoi : o ≠ i := fun he => hnm (he ▸ ho4)
        refine ⟨o, by omega, ho2, ho3, ho4, ?_⟩
        rcases hd with h | h | ⟨j, hj1, hj2, hj3, hj4⟩
        · exact Or.inl h
        · exact Or.inr (Or.inl h)
        · have hji : j ≠ i := fun he => hnm (he ▸ hj4)
          exact Or.inr (Or.inr ⟨j, by omega, hj2, hj3, hj4⟩)


theorem prevN_two (st : StateInfo) :
    st.previous.bind (·.previous) = st.prevN 2 := by
  have h := prevN_step2 st 0
  simpa [StateInfo.prevN] using h

/-- C3 (amended): `is_draw(ply)` reports a draw exactly when the fifty-move
branch fires or the current position key matches the key of a state
strictly earlier in the State Record Chain with the same side to move
(walking back two plies at a time, starting four plies back) *within the
`min(rule50, pliesFromNull)` window*, counted once if the repetition point
lies less than `ply` plies back and twice otherwise.  The hypothesis says
the chain actually holds that window (the C++ walk dereferences
uninitialized pointers otherwise). -/
theorem C3_repetition (pos : Pos) (ply : Int) (lm : Bool)
    (hch : ∀ k, k ≤ min pos.st.rule50 pos.st.pliesFromNull →
      (pos.st.prevN k).isSome = true) :
    (pos.is_draw ply lm = true ↔
      (99 < pos.st.rule50 ∧ (pos.checkers = 0 ∨ lm = true)) ∨ RepWindow pos ply) := by
  unfold Pos.is_draw
  by_cases hf : 99 < pos.st.rule50 ∧ (pos.checkers = 0 ∨ lm = true)
  · simp [hf]
  · simp only [hf, if_false, false_or]
    unfold Pos.rep_part
    by_cases h4 : min pos.st.rule50 pos.st.pliesFromNull < 4
    · rw [if_pos h4]
      simp only [Bool.false_eq_true, false_iff]
      rintro ⟨o, ho1, ho2, -, -, -⟩
      omega
    · rw [if_neg h4]
      rw [goRep_iff pos.st ply (4 + 2 * ((min pos.st.rule50 pos.st.pliesFromNull - 4) / 2))
        (fun k hk => hch k (by omega))
        ((min pos.st.rule50 pos.st.pliesFromNull - 4) / 2 + 1) 4 0
        (pos.st.previous.bind (·.previous)) (by omega) (by omega) (by omega)
        (by rw [prevN_two])
        (Or.inl ⟨rfl, fun j hj4 hji _ _ => by omega⟩)]
      constructor
      · rintro ⟨o, ho1, ho2, ho3, ho4, hd⟩
        refine ⟨o, ho1, by omega, ho3, ho4, ?_⟩
        rcases hd with h | h | h
        · exact Or.inl h
        · exact absurd h (by omega)
        · exact Or.inr h
      · rintro ⟨o, ho1, ho2, ho3, ho4, hd⟩
        refine ⟨o, ho1, by omega, ho3, ho4, ?_⟩
        rcases hd with h | h
        · exact Or.inl h
        · exact Or.inr (Or.inr h)

/-- The State Record Chain of the C3 counterexample: the key four plies
back equals the current key, but the position is freshly past a null move
(`pliesFromNull = 0`), so the code's window is empty. -/
def ceSt4 : StateInfo := { stBase with key := 77 }
def ceSt3 : StateInfo := { stBase with key := 3, previous := some ceSt4 }
def ceSt2 : StateInfo := { stBase with key := 2, previous := some ceSt3 }
def ceSt1 : StateInfo := { stBase with key := 1, previous := some ceSt2 }
def ceSt0 : StateInfo :=
  { stBase with key := 77, rule50 := 50, pliesFromNull := 0, previous := some ceSt1 }

def cePos : Pos := { posOO with st := ceSt0 }

/-- C3 is false as stated: with the key recurring four plies back at the
same side to move but `pliesFromNull = 0` (the previous ply was a null
move), the claimed once-counting rule says `is_draw(5)` reports the draw,
but the code's walk is capped by `min(rule50, pliesFromNull)` and reports
none. -/
theorem C3_rep_counterexample :
    RepClaim cePos 5 ∧ cePos.is_draw 5 true = false := by
  constructor
  · refine ⟨4, by norm_num, by norm_num, rfl, Or.inl (by norm_num)⟩
  · decide


/-- A chain for the C3 witness: the key recurs four plies back and the
window `min(rule50, pliesFromNull) = 4` covers it. -/
def wRepSt4 : StateInfo := { stBase with key := 9 }
def wRepSt3 : StateInfo := { stBase with key := 3, previous := some wRepSt4 }
def wRepSt2 : StateInfo := { stBase with key := 2, previous := some wRepSt3 }
def wRepSt1 : StateInfo := { stBase with key := 1, previous := some wRepSt2 }
def wRepSt0 : StateInfo :=
  { stBase with key := 9, rule50 := 4, pliesFromNull := 4, previous := some wRepSt1 }

def wRepPos : Pos := { posOO with st := wRepSt0 }

/-- Witness for the amended C3: a repetition four plies back, after the
root (`ply = 5`), is reported as a draw. -/
theorem C3_repetition_witness : wRepPos.is_draw 5 true = true :=
  (C3_repetition wRepPos 5 true (by decide)).mpr
    (Or.inr ⟨4, by norm_num, by decide, by norm_num, rfl, Or.inl (by norm_num)⟩)


/-! ## C10: en-passant normalization in `Position::set` -/

theorem shiftN_squareBB (s : Nat) (h : s + 8 < 64) :
    shiftN (squareBB s) = squareBB (s + 8) := by
  unfold shiftN squareBB
  rw [Nat.shiftLeft_eq, ← pow_add]
  exact Nat.mod_eq_of_lt (Nat.pow_lt_pow_right (by norm_num) h)

theorem shiftS_squareBB (s : Nat) (h : 8 ≤ s) :
    shiftS (squareBB s) = squareBB (s - 8) := by
  unfold shiftS squareBB
  rw [Nat.shiftRight_eq_div_pow]
  exact Nat.pow_div h (by norm_num)

/-- The en-passant filter of `Position::set` keeps the parsed square
exactly when: a pawn of the side to move attacks it, the double-pushed
enemy pawn stands directly behind it, the square itself is empty, and the
double-push origin square is empty (the redundant shift-based re-checks of
lines 375–381 collapse into these). -/
theorem epFilter_char (pos : Pos) (ep : Nat) (hstm : pos.sideToMove < 2)
    (hrank : rank_of ep = relative_rank_r pos.sideToMove 5) :
    pos.epFilter ep =
      if (pos.attackers_to_d ep &&& pos.piecesCT pos.sideToMove 1 ≠ 0)
          ∧ (pos.piecesCT (pos.sideToMove ^^^ 1) 1
              &&& squareBB (((ep : Int) + pawn_push (pos.sideToMove ^^^ 1)).toNat) ≠ 0)
          ∧ (squareBB ep &&& pos.pieces = 0)
          ∧ (squareBB (((ep : Int) + pawn_push pos.sideToMove).toNat) &&& pos.pieces = 0) then
        ep
      else SQ_NONE := by
  rcases (by omega : pos.sideToMove = 0 ∨ pos.sideToMove = 1) with h0 | h0
  · have hb : 40 ≤ ep ∧ ep < 48 := by
      rw [h0] at hrank
      have h5 : relative_rank_r 0 5 = 5 := rfl
      rw [h5] at hrank
      unfold rank_of at hrank
      omega
    have hpp1 : pawn_push 1 = -8 := rfl
    have hpp0 : pawn_push 0 = 8 := rfl
    have htn1 : ((ep : Int) + -8).toNat = ep - 8 := by omega
    have htn0 : ((ep : Int) + 8).toNat = ep + 8 := by omega
    have hsN : shiftN (squareBB ep) = squareBB (ep + 8) := shiftN_squareBB ep (by omega)
    have hsS : shiftS (squareBB ep) = squareBB (ep - 8) := shiftS_squareBB ep (by omega)
    unfold Pos.epFilter
    simp only [h0, hpp1, hpp0, htn1, htn0, hsN, hsS]
    by_cases hA : pos.attackers_to_d ep &&& pos.piecesCT 0 1 ≠ 0 <;>
      by_cases hB : pos.piecesCT 1 1 &&& squareBB (ep - 8) ≠ 0 <;>
      by_cases hC : squareBB ep &&& pos.pieces = 0 <;>
      by_cases hD : squareBB (ep + 8) &&& pos.pieces = 0 <;>
      simp [hA, hB, hC, hD, hpp1, hpp0, htn1, htn0, hsN, hsS, Nat.land_comm] <;> (intro h; rw [if_pos h])
  · have hb : 16 ≤ ep ∧ ep < 24 := by
      rw [h0] at hrank
      have h2 : relative_rank_r 1 5 = 2 := rfl
      rw [h2] at hrank
      unfold rank_of at hrank
      omega
    have hpp1 : pawn_push 0 = 8 := rfl
    have hpp0 : pawn_push 1 = -8 := rfl
    have htn1 : ((ep : Int) + 8).toNat = ep + 8 := by omega
    have htn0 : ((ep : Int) + -8).toNat = ep - 8 := by omega
    have hsN : shiftN (squareBB ep) = squareBB (ep + 8) := shiftN_squareBB ep (by omega)
    have hsS : shiftS (squareBB ep) = squareBB (ep - 8) := shiftS_squareBB ep (by omega)
    unfold Pos.epFilter
    simp only [h0, hpp1, hpp0, htn1, htn0, hsN, hsS]
    by_cases hA : pos.attackers_to_d ep &&& pos.piecesCT 1 1 ≠ 0 <;>
      by_cases hB : pos.piecesCT 0 1 &&& squareBB (ep + 8) ≠ 0 <;>
      by_cases hC : squareBB ep &&& pos.pieces = 0 <;>
      by_cases hD : squareBB (ep - 8) &&& pos.pieces = 0 <;>
      simp [hA, hB, hC, hD, hpp1, hpp0, htn1, htn0, hsN, hsS, Nat.land_comm] <;> (intro h; rw [if_pos h])


/-- The en-passant invariant established by `Position::set`: the stored
square is `SQ_NONE` unless it lies on the opponent-relative third rank, a
pawn of the side to move attacks it, the double-pushed enemy pawn stands
directly behind it, the square itself is empty and the double-push origin
square is empty. -/
def EpNormalized (p : Pos) : Prop :=
  p.st.epSquare = SQ_NONE ∨
    (p.st.epSquare < 64 ∧
     rank_of p.st.epSquare = relative_rank_r p.sideToMove 5 ∧
     p.attackers_to_d p.st.epSquare &&& p.piecesCT p.sideToMove 1 ≠ 0 ∧
     p.piecesCT (p.sideToMove ^^^ 1) 1
       &&& squareBB (((p.st.epSquare : Int) + pawn_push (p.sideToMove ^^^ 1)).toNat) ≠ 0 ∧
     squareBB p.st.epSquare &&& p.pieces = 0 ∧
     squareBB (((p.st.epSquare : Int) + pawn_push p.sideToMove).toNat) &&& p.pieces = 0)

theorem parseEp_norm (cs : List Char) (pos : Pos) (hstm : pos.sideToMove < 2) :
    EpNormalized (parseEp cs pos).1 := by
  match cs with
  | [] => exact Or.inl rfl
  | col :: rest =>
    simp only [parseEp]
    by_cases hcol : 'a' ≤ col ∧ col ≤ 'h'
    · rw [if_pos hcol]
      match rest with
      | [] => exact Or.inl rfl
      | row :: rest2 =>
        dsimp only
        by_cases hrow : (if pos.sideToMove = 1 then row = '3' else row = '6')
        · rw [if_pos hrow]
          have hcb : 97 ≤ col.toNat ∧ col.toNat ≤ 104 := by
            obtain ⟨h1, h2⟩ := hcol
            rw [Char.le_def] at h1 h2
            exact ⟨h1, h2⟩
          have hrank : rank_of (8 * (row.toNat - 49) + (col.toNat - 97))
              = relative_rank_r pos.sideToMove 5 := by
            rcases (by omega : pos.sideToMove = 0 ∨ pos.sideToMove = 1) with h0 | h0
            · rw [if_neg (by omega)] at hrow
              subst hrow
              rw [h0]
              show (8 * (54 - 49) + (col.toNat - 97)) / 8 = relative_rank_r 0 5
              have h5 : relative_rank_r 0 5 = 5 := rfl
              rw [h5]
              omega
            · rw [if_pos h0] at hrow
              subst hrow
              rw [h0]
              show (8 * (51 - 49) + (col.toNat - 97)) / 8 = relative_rank_r 1 5
              have h2 : relative_rank_r 1 5 = 2 := rfl
              rw [h2]
              omega
          have hep0 : 8 * (row.toNat - 49) + (col.toNat - 97) < 64 := by
            rcases (by omega : pos.sideToMove = 0 ∨ pos.sideToMove = 1) with h0 | h0
            · rw [if_neg (by omega)] at hrow
              subst hrow
              have h6 : Char.toNat '6' = 54 := rfl
              rw [h6]
              omega
            · rw [if_pos h0] at hrow
              subst hrow
              have h3 : Char.toNat '3' = 51 := rfl
              rw [h3]
              omega
          show EpNormalized
            { pos with st := { pos.st with
                epSquare := pos.epFilter (8 * (row.toNat - 49) + (col.toNat - 97)) } }
          unfold EpNormalized
          dsimp only
          rw [epFilter_char pos _ hstm hrank]
          split_ifs with hC
          · exact Or.inr ⟨hep0, hrank, hC.1, hC.2.1, hC.2.2.1, hC.2.2.2⟩
          · exact Or.inl rfl
        · rw [if_neg hrow]
          exact Or.inl rfl
    · rw [if_neg hcol]
      exact Or.inl rfl

theorem applyCastlingToken_stm (pos : Pos) (ch : Char) :
    (pos.applyCastlingToken ch).sideToMove = pos.sideToMove := by
  unfold Pos.applyCastlingToken Pos.set_castling_right
  dsimp only
  repeat' split
  all_goals rfl

theorem castling_loop_stm (cs : List Char) (pos : Pos) :
    (parseCastlingLoop cs pos).1.sideToMove = pos.sideToMove := by
  induction cs generalizing pos with
  | nil => rfl
  | cons ch rest ih =>
    unfold parseCastlingLoop
    by_cases hsp : isSpaceC ch
    · rw [if_pos hsp]
    · rw [if_neg hsp, ih, applyCastlingToken_stm]

/-- C10: `Position::set` silently normalizes the en-passant field — for
every input string the stored en-passant square is `SQ_NONE` unless all
of: the square is on the opponent-relative third rank, a pawn of the side
to move attacks it, the double-pushed enemy pawn stands directly behind
it, the square itself is empty and the square the double-pushing pawn
came from is empty; an en-passant field naming any other situation is
discarded rather than rejected. -/
theorem C10_ep_normalized (Z : Zob) (T : Tables) (s : String) (c960 : Bool) (v : Variant) :
    EpNormalized (setPos Z T s c960 v) := by
  let st1 := parsePlacement s.toList (emptyPos v c960) 56
  let stmRead := parseOne st1.2
  let stm : Nat := if stmRead.1 = some 'w' then 0 else 1
  let pos2 : Pos := { st1.1 with sideToMove := stm }
  let cs3 := (parseOne stmRead.2).2
  let st4 := parseCastlingLoop cs3 pos2
  have hstm : st4.1.sideToMove < 2 := by
    show (parseCastlingLoop cs3 pos2).1.sideToMove < 2
    rw [castling_loop_stm]
    show (if stmRead.1 = some 'w' then 0 else 1) < 2
    split <;> omega
  exact parseEp_norm st4.2 st4.1 hstm

end SfX
